import Mathlib

/-!
Verification development for a small reverse-mode autodiff engine
(a Rust port of micrograd, `src/main.rs`).

Embedding notes.
The Rust program stores nodes as `Value(Rc<RefCell<_Value>>)`: a heap of
mutable records shared by reference.  We embed the heap as an arena: a
`Store` is a list of `_Value` records and a node handle is its index
(`Nat`).  All constructors append to the store (so a node's operands
always have strictly smaller indices than the node itself, which is the
arena form of the acyclicity that `Rc` construction guarantees), and the
mutators `update_data` / `update_grad` write the slot in place, which is
the arena form of `RefCell` interior mutability.

Scalars: `f64` is embedded as an arbitrary commutative ring `α` with
decidable equality; the transcendental operations `f64::exp`,
`f64::tanh`, `f64::powf` are taken as an explicit parameter `FloatOps α`,
so every statement below is proved for arbitrary interpretations of the
scalar type and of those three functions (concrete witnesses use
`α := Int`).  The program's differentiation rules use only ring
operations besides the three abstract functions.  IEEE-754 NaN/Infinity
behaviour is out of scope (the spec treats it as propagating
contamination, not as semantics to verify).

The derived `PartialEq` on the Rust `Value` compares `Rc<RefCell<_Value>>`
by the *contents* (`Rc`/`RefCell` forward `==` to the inner value, and the
derived `_Value` equality recurses through `_prev`), i.e. it is deep
structural equality, not pointer identity.  `structEq` below embeds that
comparison; it recurses with explicit fuel because the kernel cannot
reduce well-founded recursion, and the guard `a1 < i ∧ ...` records the
smaller-operand invariant under which the recursion is total.
-/

namespace Micrograd

set_option linter.unusedSectionVars false

/-- The operation tag of a node (Rust `enum Op`). -/
inductive Op where
  | Add
  | Mul
  | Tanh
  | Exp
  | Pow
deriving DecidableEq, Repr

/-- One heap record (Rust `struct _Value`): scalar result, operand pair,
operation tag, gradient accumulator.  Operands are arena indices. -/
structure _Value (α : Type) where
  data : α
  _prev : Option (Nat × Nat)
  _op : Option Op
  grad : α
deriving DecidableEq

/-- The arena embedding of the Rust heap of `Rc<RefCell<_Value>>` cells. -/
abbrev Store (α : Type) := List (_Value α)

/-- Abstract interpretations of the three `f64` transcendental functions
used by the program (`exp`, `tanh`, `powf`). -/
structure FloatOps (α : Type) where
  exp : α → α
  tanh : α → α
  powf : α → α → α

variable {α : Type} [CommRing α] [DecidableEq α]

/-- Rust `Value::get_data` (0 is returned only for dangling handles,
which constructor-built code never produces). -/
def Value.get_data (s : Store α) (v : Nat) : α :=
  ((s[v]?).map _Value.data).getD 0

/-- Rust `Value::get_grad`. -/
def Value.get_grad (s : Store α) (v : Nat) : α :=
  ((s[v]?).map _Value.grad).getD 0

/-- Rust `Value::get_prev`. -/
def Value.get_prev (s : Store α) (v : Nat) : Option (Nat × Nat) :=
  (s[v]?).bind _Value._prev

/-- Rust `Value::get_op`. -/
def Value.get_op (s : Store α) (v : Nat) : Option Op :=
  (s[v]?).bind _Value._op

/-- Rust `Value::update_data`: in-place mutation of the `data` field. -/
def Value.update_data (s : Store α) (v : Nat) (x : α) : Store α :=
  match s[v]? with
  | some nd => s.set v { nd with data := x }
  | none => s

/-- Rust `Value::update_grad`: in-place mutation of the `grad` field. -/
def Value.update_grad (s : Store α) (v : Nat) (g : α) : Store α :=
  match s[v]? with
  | some nd => s.set v { nd with grad := g }
  | none => s

/-- Rust `Value::new_ext`: allocate a fresh node (grad initialized to 0)
and return its handle. -/
def Value.new_ext (s : Store α) (data : α) (children : Option (Nat × Nat))
    (op : Option Op) : Store α × Nat :=
  (s ++ [{ data := data, _prev := children, _op := op, grad := 0 }], s.length)

/-- Rust `Value::new`: a leaf node. -/
def Value.new (s : Store α) (data : α) : Store α × Nat :=
  Value.new_ext s data none none

/-- Rust `Value::tanh` (note: the source fills both operand slots with
`self`). -/
def Value.tanh (F : FloatOps α) (s : Store α) (v : Nat) : Store α × Nat :=
  Value.new_ext s (F.tanh (Value.get_data s v)) (some (v, v)) (some Op.Tanh)

/-- Rust `Value::exp` (both operand slots are `self`). -/
def Value.exp (F : FloatOps α) (s : Store α) (v : Nat) : Store α × Nat :=
  Value.new_ext s (F.exp (Value.get_data s v)) (some (v, v)) (some Op.Exp)

/-- Rust `Value::add`. -/
def Value.add (s : Store α) (a b : Nat) : Store α × Nat :=
  Value.new_ext s (Value.get_data s a + Value.get_data s b) (some (a, b)) (some Op.Add)

/-- Rust `Value::mul`. -/
def Value.mul (s : Store α) (a b : Nat) : Store α × Nat :=
  Value.new_ext s (Value.get_data s a * Value.get_data s b) (some (a, b)) (some Op.Mul)

/-- Rust `Value::neg`: `self.mul(Value::new(-1.0))`. -/
def Value.neg (s : Store α) (v : Nat) : Store α × Nat :=
  let p := Value.new s (-1)
  Value.mul p.1 v p.2

/-- Rust `Value::sub`: `self.add(other.neg())`. -/
def Value.sub (s : Store α) (a b : Nat) : Store α × Nat :=
  let p := Value.neg s b
  Value.add p.1 a p.2

/-- Rust `Value::pow`. -/
def Value.pow (F : FloatOps α) (s : Store α) (a b : Nat) : Store α × Nat :=
  Value.new_ext s (F.powf (Value.get_data s a) (Value.get_data s b)) (some (a, b))
    (some Op.Pow)

/-- Rust `Value::div`: `self.mul(other.pow(Value::new(-1.0)))`. -/
def Value.div (F : FloatOps α) (s : Store α) (a b : Nat) : Store α × Nat :=
  let p := Value.new s (-1)
  let q := Value.pow F p.1 b p.2
  Value.mul q.1 a q.2

/-- Deep structural equality of two handles, embedding the derived Rust
`PartialEq` for `Value` (field order `data`, `_prev`, `_op`, `grad`; the
`_prev` comparison recurses into the operand nodes).  `fuel` makes the
recursion structural; the guard keeps every recursive call on smaller
first components, so `fuel = i + 1` is always sufficient (see
`structEqF_fuel`). -/
def structEqF (s : Store α) : Nat → Nat → Nat → Bool
  | 0, _, _ => false
  | fuel + 1, i, j =>
    match s[i]?, s[j]? with
    | some a, some b =>
      decide (a.data = b.data) &&
      (match a._prev, b._prev with
       | none, none => true
       | some (a1, a2), some (b1, b2) =>
         if a1 < i ∧ a2 < i ∧ b1 < j ∧ b2 < j then
           structEqF s fuel a1 b1 && structEqF s fuel a2 b2
         else false
       | _, _ => false) &&
      decide (a._op = b._op) && decide (a.grad = b.grad)
    | _, _ => false

/-- Deep structural equality at adequate fuel (the embedding of `x == v`
on Rust `Value`s). -/
def structEq (s : Store α) (i j : Nat) : Bool :=
  structEqF s (i + 1) i j

/-- Rust `build_topo` (inner function of `backward`): post-order DFS
that marks visited nodes with the structural-equality test
`visited.iter().any(|x| x == v)`.  `fuel = v + 1` is sufficient because
operand indices are strictly smaller than the node index in every
constructor-built store (the guard's else-branch is unreachable there). -/
def build_topoF (s : Store α) : Nat → Nat → List Nat → List Nat → List Nat × List Nat
  | 0, _, topo, visited => (topo, visited)
  | fuel + 1, v, topo, visited =>
    if visited.any (fun x => structEq s x v) then (topo, visited)
    else
      let visited := visited ++ [v]
      match Value.get_prev s v with
      | some (a, b) =>
        if a < v ∧ b < v then
          let p := build_topoF s fuel a topo visited
          let q := build_topoF s fuel b p.1 p.2
          (q.1 ++ [v], q.2)
        else (topo ++ [v], visited)
      | none => (topo ++ [v], visited)

/-- Rust `build_topo` at adequate fuel. -/
def build_topo (s : Store α) (v : Nat) (topo visited : List Nat) :
    List Nat × List Nat :=
  build_topoF s (v + 1) v topo visited

/-- Rust `Value::_backward`: one local differentiation step.  The source
is transcribed exactly: note that the `Tanh`, `Exp` and `Pow` branches
assign the operand's grad instead of adding to it. -/
def Value._backward (F : FloatOps α) (s : Store α) (v : Nat) : Store α :=
  match Value.get_prev s v with
  | some (a, b) =>
    match Value.get_op s v with
    | some Op.Add =>
      let s := Value.update_grad s a (Value.get_grad s a + Value.get_grad s v)
      Value.update_grad s b (Value.get_grad s b + Value.get_grad s v)
    | some Op.Mul =>
      let s := Value.update_grad s a
        (Value.get_grad s a + Value.get_data s b * Value.get_grad s v)
      Value.update_grad s b
        (Value.get_grad s b + Value.get_data s a * Value.get_grad s v)
    | some Op.Tanh =>
      let t := F.tanh (Value.get_data s a)
      Value.update_grad s a ((1 - F.powf t 2) * Value.get_grad s v)
    | some Op.Exp =>
      Value.update_grad s a (F.exp (Value.get_data s a) * Value.get_grad s v)
    | some Op.Pow =>
      Value.update_grad s a
        (Value.get_data s b * F.powf (Value.get_data s a) (Value.get_data s b - 1) *
          Value.get_grad s v)
    | none => s
  | none => s

/-- Rust `Value::backward`: build the topological order, seed the root's
grad with 1, then run `_backward` over the reversed order. -/
def Value.backward (F : FloatOps α) (s : Store α) (v : Nat) : Store α :=
  let topo := (build_topo s v [] []).1
  let s := Value.update_grad s v 1
  (topo.reverse).foldl (fun st n => Value._backward F st n) s

/-- Rust `struct Neuron`: handles of the weight leaves and the bias leaf. -/
structure Neuron where
  w : List Nat
  b : Nat

/-- Rust `Neuron::new`.  The source draws `nin` weights and then the bias
from `rand::thread_rng()`; the ambient generator is embedded as an
explicit value stream `rng` with a cursor `k` (sampling order preserved:
weights first, bias last).  Returns the extended store, the neuron, and
the advanced cursor. -/
def Neuron.new (rng : Nat → α) (k : Nat) (s : Store α) (nin : Nat) :
    Store α × Neuron × Nat :=
  let ws := (List.range nin).foldl
    (fun (acc : Store α × List Nat × Nat) _ =>
      let p := Value.new acc.1 (rng acc.2.2)
      (p.1, acc.2.1 ++ [p.2], acc.2.2 + 1)) (s, [], k)
  let pb := Value.new ws.1 (rng ws.2.2)
  (pb.1, ⟨ws.2.1, pb.2⟩, ws.2.2 + 1)

/-- Rust `Neuron::call`: asserts `w.len() == inputs.len()`, then folds
`acc.add(weight.mul(input))` starting from a fresh zero leaf (the
`wx` iterator is lazy, so the zero leaf is allocated first and each
product is allocated just before the sum node that consumes it), adds
the bias, and applies `tanh`.  The failed assertion is embedded as
`Except.error` with the assertion's message. -/
def Neuron.call (F : FloatOps α) (s : Store α) (n : Neuron) (inputs : List Nat) :
    Except String (Store α × Nat) :=
  if n.w.length = inputs.length then
    let z := Value.new s 0
    let acc := (n.w.zip inputs).foldl
      (fun (p : Store α × Nat) (wx : Nat × Nat) =>
        let m := Value.mul p.1 wx.1 wx.2
        Value.add m.1 p.2 m.2) (z.1, z.2)
    let act := Value.add acc.1 acc.2 n.b
    Except.ok (Value.tanh F act.1 act.2)
  else Except.error "Input size must match number of weights."

/-- Rust `Neuron::parameters`: the weight handles followed by the bias
handle (clones of the `Rc` handles, i.e. the same arena indices). -/
def Neuron.parameters (n : Neuron) : List Nat :=
  n.w ++ [n.b]

/-- Rust `struct Layer`. -/
structure Layer where
  neurons : List Neuron

/-- Rust `Layer::new`: `nout` neurons of `nin` inputs each, drawing from
the same generator stream in order. -/
def Layer.new (rng : Nat → α) (k : Nat) (s : Store α) (nin nout : Nat) :
    Store α × Layer × Nat :=
  let r := (List.range nout).foldl
    (fun (acc : Store α × List Neuron × Nat) _ =>
      let p := Neuron.new rng acc.2.2 acc.1 nin
      (p.1, acc.2.1 ++ [p.2.1], p.2.2)) (s, [], k)
  (r.1, ⟨r.2.1⟩, r.2.2)

/-- Rust `Layer::call`: every neuron consumes the same input handles; a
neuron's assertion failure aborts the whole call (as a panic would). -/
def Layer.call (F : FloatOps α) (s : Store α) (l : Layer) (inputs : List Nat) :
    Except String (Store α × List Nat) :=
  l.neurons.foldlM
    (fun (p : Store α × List Nat) n => do
      let r ← Neuron.call F p.1 n inputs
      pure (r.1, p.2 ++ [r.2])) (s, [])

/-- Rust `Layer::parameters`. -/
def Layer.parameters (l : Layer) : List Nat :=
  (l.neurons.map Neuron.parameters).flatten

/-- Rust `struct MLP`. -/
structure MLP where
  layers : List Layer

/-- Rust `MLP::new`: `sz = [nin] ++ nouts`, one layer per adjacent pair
of `sz` (`sz.windows(2)` is `sz.zip sz.tail`). -/
def MLP.new (rng : Nat → α) (k : Nat) (s : Store α) (nin : Nat) (nouts : List Nat) :
    Store α × MLP × Nat :=
  let sz := nin :: nouts
  let r := (sz.zip sz.tail).foldl
    (fun (acc : Store α × List Layer × Nat) (p : Nat × Nat) =>
      let q := Layer.new rng acc.2.2 acc.1 p.1 p.2
      (q.1, acc.2.1 ++ [q.2.1], q.2.2)) (s, [], k)
  (r.1, ⟨r.2.1⟩, r.2.2)

/-- Rust `MLP::call`: wraps each raw input into a fresh leaf node, folds
the layers (each layer's outputs feed the next), and returns `out[0]`.
The out-of-bounds panic of `out[0]` on an empty output is embedded as
`Except.error`. -/
def MLP.call (F : FloatOps α) (s : Store α) (m : MLP) (inputs : List α) :
    Except String (Store α × Nat) :=
  let ins := inputs.foldl
    (fun (p : Store α × List Nat) x =>
      let q := Value.new p.1 x
      (q.1, p.2 ++ [q.2])) (s, [])
  match m.layers.foldlM
      (fun (p : Store α × List Nat) l => Layer.call F p.1 l p.2) (ins.1, ins.2) with
  | Except.ok r =>
    match r.2[0]? with
    | some v => Except.ok (r.1, v)
    | none => Except.error "index out of bounds: the len is 0 but the index is 0"
  | Except.error e => Except.error e

/-- Modelled from the spec (refinement target for the claim about
`Network.forward`): "threads the output sequence of each layer as the
input sequence to the next; returns the final layer's output sequence".
Identical to `MLP.call` up to the final step, but returns the entire
final output sequence instead of indexing position 0. -/
def MLP.call_spec (F : FloatOps α) (s : Store α) (m : MLP) (inputs : List α) :
    Except String (Store α × List Nat) :=
  let ins := inputs.foldl
    (fun (p : Store α × List Nat) x =>
      let q := Value.new p.1 x
      (q.1, p.2 ++ [q.2])) (s, [])
  m.layers.foldlM
    (fun (p : Store α × List Nat) l => Layer.call F p.1 l p.2) (ins.1, ins.2)

/-- Rust `MLP::parameters`. -/
def MLP.parameters (m : MLP) : List Nat :=
  (m.layers.map Layer.parameters).flatten

/-- Per-slot well-formedness: operand indices precede the node's index.
Every store produced by the constructors satisfies it (operands exist
before the node that consumes them). -/
def nodeOk (i : Nat) (nd : _Value α) : Bool :=
  match nd._prev with
  | some (a, b) => decide (a < i ∧ b < i)
  | none => true

/-- Store well-formedness: every slot's operands precede it. -/
def storeWF (s : Store α) : Bool :=
  (List.range s.length).all fun i =>
    match s[i]? with
    | some nd => nodeOk i nd
    | none => true

/-- Reset every node's grad to 0 (the caller-side zero-grad step; the
training loop does it per parameter, here applied to the whole heap). -/
def zeroAll (s : Store α) : Store α :=
  s.map fun nd => { nd with grad := 0 }

/-- Shift a slot's operand references by `n` (relocation of a node
record when the same graph is built on top of an `n`-slot heap). -/
def shiftSlot (n : Nat) (nd : _Value α) : _Value α :=
  { nd with _prev := nd._prev.map fun p => (n + p.1, n + p.2) }

/-- Relocate a whole store by `n` slots. -/
def shiftStore (n : Nat) (s : Store α) : Store α :=
  s.map (shiftSlot n)

/-- Expression shapes over the graph constructors: the "equal-shaped
expressions" of the zero-grad-isolation property.  Leaves carry their
constant. -/
inductive Expr (α : Type) where
  | leaf : α → Expr α
  | addE : Expr α → Expr α → Expr α
  | mulE : Expr α → Expr α → Expr α
  | tanhE : Expr α → Expr α
  | expE : Expr α → Expr α
  | powE : Expr α → Expr α → Expr α

/-- Build an expression into a store using the program's constructors
(fresh leaves each time, operands built left to right), returning the
root handle. -/
def buildE (F : FloatOps α) : Expr α → Store α → Store α × Nat
  | Expr.leaf q, s => Value.new s q
  | Expr.addE e1 e2, s =>
    let p := buildE F e1 s
    let q := buildE F e2 p.1
    Value.add q.1 p.2 q.2
  | Expr.mulE e1 e2, s =>
    let p := buildE F e1 s
    let q := buildE F e2 p.1
    Value.mul q.1 p.2 q.2
  | Expr.tanhE e, s =>
    let p := buildE F e s
    Value.tanh F p.1 p.2
  | Expr.expE e, s =>
    let p := buildE F e s
    Value.exp F p.1 p.2
  | Expr.powE e1 e2, s =>
    let p := buildE F e1 s
    let q := buildE F e2 p.1
    Value.pow F q.1 p.2 q.2

/-- Layer-size bookkeeping of a network: the i-th layer has
`layer_sizes[i]` neurons, each with as many weights as the previous
size.  This is what `MLP::new` establishes. -/
def chainOk : Nat → List Layer → List Nat → Prop
  | _, [], [] => True
  | nin, l :: ls, m :: ms =>
    l.neurons.length = m ∧ (∀ nr ∈ l.neurons, nr.w.length = nin) ∧ chainOk m ls ms
  | _, _, _ => False

/-- Concrete interpretation of the transcendental functions over `Int`
with `exp` constantly 10 (any nonzero choice exhibits the behaviours
below; the claims under test are structural, not numeric). -/
def Fexp10 : FloatOps Int :=
  ⟨fun _ => 10, fun q => q, fun a _ => a⟩

/-- Concrete interpretation with identity-like transcendentals. -/
def Fid : FloatOps Int :=
  ⟨fun q => q, fun q => q, fun a _ => a⟩

/-- Concrete graph `y = add(exp(x), x)` over the leaf `x = node 0`
(handles: `x = 0`, `exp(x) = 1`, `y = 2`). -/
def gC1 : Store Int × Nat :=
  let px := Value.new [] 0
  let pe := Value.exp Fexp10 px.1 px.2
  Value.add pe.1 pe.2 px.2

/-- Concrete graph `y = add(exp(a1), exp(a2))` where `a1` and `a2` are
two distinct leaves holding the same value 0 (handles: `a1 = 0`,
`a2 = 1`, `exp(a1) = 2`, `exp(a2) = 3`, `y = 4`). -/
def gC2 : Store Int × Nat :=
  let p1 := Value.new [] 0
  let p2 := Value.new p1.1 0
  let e1 := Value.exp Fexp10 p2.1 p1.2
  let e2 := Value.exp Fexp10 e1.1 p2.2
  Value.add e2.1 e1.2 e2.2

/-- Concrete graph `root = add(l1, l2)` over two distinct leaves that
both hold 1 (handles: `l1 = 0`, `l2 = 1`, `root = 2`). -/
def gC6 : Store Int × Nat :=
  let p1 := Value.new [] 1
  let p2 := Value.new p1.1 1
  Value.add p2.1 p1.2 p2.2

/-- Concrete diamond `y = mul(x, x)` over the leaf `x = node 0` with
`x.value = 3` (handles: `x = 0`, `y = 1`). -/
def gMulXX : Store Int × Nat :=
  let px := Value.new [] 3
  Value.mul px.1 px.2 px.2

/-- The diamond `y = mul(x, x)` over a single fresh leaf holding `q`
(handles: `x = 0`, `y = 1`); the shape of the fan-out test graph. -/
def mulSelfGraph (q : α) : Store α × Nat :=
  let p := Value.new ([] : Store α) q
  Value.mul p.1 p.2 p.2

/-- Concrete graph `p = pow(a, b)` with `a.value = 2`, `b.value = 5`
(handles: `a = 0`, `b = 1`, `p = 2`). -/
def gPow : Store Int × Nat :=
  let pa := Value.new [] 2
  let pb := Value.new pa.1 5
  Value.pow Fid pb.1 pa.2 pb.2

/-- Concrete one-leaf store holding 3 (handle 0). -/
def gLeaf3 : Store Int × Nat :=
  Value.new [] 3

/-- Concrete network with `n_in = 1` and `layer_sizes = [2]`, weights
drawn from the constant stream 1. -/
def mlp12 : Store Int × MLP × Nat :=
  MLP.new (fun _ => 1) 0 ([] : Store Int) 1 [2]

/-- Concrete network with `n_in = 1` and `layer_sizes = [1]`, weights
drawn from the constant stream 1. -/
def mlp11 : Store Int × MLP × Nat :=
  MLP.new (fun _ => 1) 0 ([] : Store Int) 1 [1]

/-- Mutating a grad never changes the store's length. -/
theorem update_grad_length (s : Store α) (v : Nat) (g : α) :
    (Value.update_grad s v g).length = s.length := by
  unfold Value.update_grad
  cases h : s[v]? <;> simp

/-- Mutating a data field never changes the store's length. -/
theorem update_data_length (s : Store α) (v : Nat) (x : α) :
    (Value.update_data s v x).length = s.length := by
  unfold Value.update_data
  cases h : s[v]? <;> simp

/-- Looking up the slot just overwritten by `update_grad`. -/
theorem slot_update_grad_self (s : Store α) (v : Nat) (g : α) (nd : _Value α)
    (h : s[v]? = some nd) :
    (Value.update_grad s v g)[v]? = some { nd with grad := g } := by
  unfold Value.update_grad
  rw [h]
  have hv : v < s.length := by
    have := List.getElem?_eq_some.mp h
    exact this.1
  simp [List.getElem?_set, hv]

/-- Looking up any other slot after `update_grad`. -/
theorem slot_update_grad_ne (s : Store α) (v w : Nat) (g : α) (hw : w ≠ v) :
    (Value.update_grad s v g)[w]? = s[w]? := by
  unfold Value.update_grad
  cases h : s[v]? with
  | none => rfl
  | some nd => simp [List.getElem?_set, Ne.symm hw]

/-- Looking up the slot just overwritten by `update_data`. -/
theorem slot_update_data_self (s : Store α) (v : Nat) (x : α) (nd : _Value α)
    (h : s[v]? = some nd) :
    (Value.update_data s v x)[v]? = some { nd with data := x } := by
  unfold Value.update_data
  rw [h]
  have hv : v < s.length := by
    have := List.getElem?_eq_some.mp h
    exact this.1
  simp [List.getElem?_set, hv]

/-- Looking up any other slot after `update_data`. -/
theorem slot_update_data_ne (s : Store α) (v w : Nat) (x : α) (hw : w ≠ v) :
    (Value.update_data s v x)[w]? = s[w]? := by
  unfold Value.update_data
  cases h : s[v]? with
  | none => rfl
  | some nd => simp [List.getElem?_set, Ne.symm hw]

/-- `update_grad` leaves every data field unchanged. -/
theorem get_data_update_grad (s : Store α) (v w : Nat) (g : α) :
    Value.get_data (Value.update_grad s v g) w = Value.get_data s w := by
  by_cases hw : w = v
  · subst hw
    cases h : s[w]? with
    | none =>
      unfold Value.update_grad
      rw [h]
    | some nd => simp [Value.get_data, slot_update_grad_self s w g nd h, h]
  · simp [Value.get_data, slot_update_grad_ne s v w g hw]

/-- `update_grad` leaves every `_prev` field unchanged. -/
theorem get_prev_update_grad (s : Store α) (v w : Nat) (g : α) :
    Value.get_prev (Value.update_grad s v g) w = Value.get_prev s w := by
  by_cases hw : w = v
  · subst hw
    cases h : s[w]? with
    | none =>
      unfold Value.update_grad
      rw [h]
    | some nd => simp [Value.get_prev, slot_update_grad_self s w g nd h, h]
  · simp [Value.get_prev, slot_update_grad_ne s v w g hw]

/-- `update_grad` leaves every `_op` field unchanged. -/
theorem get_op_update_grad (s : Store α) (v w : Nat) (g : α) :
    Value.get_op (Value.update_grad s v g) w = Value.get_op s w := by
  by_cases hw : w = v
  · subst hw
    cases h : s[w]? with
    | none =>
      unfold Value.update_grad
      rw [h]
    | some nd => simp [Value.get_op, slot_update_grad_self s w g nd h, h]
  · simp [Value.get_op, slot_update_grad_ne s v w g hw]

/-- Reading the grad just written (the handle is valid). -/
theorem get_grad_update_grad_self (s : Store α) (v : Nat) (g : α)
    (hv : v < s.length) :
    Value.get_grad (Value.update_grad s v g) v = g := by
  have h : s[v]? = some s[v] := List.getElem?_eq_getElem hv
  simp [Value.get_grad, slot_update_grad_self s v g s[v] h]

/-- Reading any other grad after `update_grad`. -/
theorem get_grad_update_grad_ne (s : Store α) (v w : Nat) (g : α) (hw : w ≠ v) :
    Value.get_grad (Value.update_grad s v g) w = Value.get_grad s w := by
  simp [Value.get_grad, slot_update_grad_ne s v w g hw]

/-- Reading the data just written (the handle is valid). -/
theorem get_data_update_data_self (s : Store α) (v : Nat) (x : α)
    (hv : v < s.length) :
    Value.get_data (Value.update_data s v x) v = x := by
  have h : s[v]? = some s[v] := List.getElem?_eq_getElem hv
  simp [Value.get_data, slot_update_data_self s v x s[v] h]

/-- Reading any other data after `update_data`. -/
theorem get_data_update_data_ne (s : Store α) (v w : Nat) (x : α) (hw : w ≠ v) :
    Value.get_data (Value.update_data s v x) w = Value.get_data s w := by
  simp [Value.get_data, slot_update_data_ne s v w x hw]

/-- `update_data` leaves every grad unchanged. -/
theorem get_grad_update_data (s : Store α) (v w : Nat) (x : α) :
    Value.get_grad (Value.update_data s v x) w = Value.get_grad s w := by
  by_cases hw : w = v
  · subst hw
    cases h : s[w]? with
    | none =>
      unfold Value.update_data
      rw [h]
    | some nd => simp [Value.get_grad, slot_update_data_self s w x nd h, h]
  · simp [Value.get_grad, slot_update_data_ne s v w x hw]

/-- Slot lookup below the original length is unchanged by appending. -/
theorem slot_append (s t : Store α) (v : Nat) (hv : v < s.length) :
    (s ++ t)[v]? = s[v]? := by
  simp [List.getElem?_append, hv]

/-- Data below the original length is unchanged by appending. -/
theorem get_data_append (s t : Store α) (v : Nat) (hv : v < s.length) :
    Value.get_data (s ++ t) v = Value.get_data s v := by
  simp [Value.get_data, slot_append s t v hv]

/-- Grad below the original length is unchanged by appending. -/
theorem get_grad_append (s t : Store α) (v : Nat) (hv : v < s.length) :
    Value.get_grad (s ++ t) v = Value.get_grad s v := by
  simp [Value.get_grad, slot_append s t v hv]

/-- Operands below the original length are unchanged by appending. -/
theorem get_prev_append (s t : Store α) (v : Nat) (hv : v < s.length) :
    Value.get_prev (s ++ t) v = Value.get_prev s v := by
  simp [Value.get_prev, slot_append s t v hv]

/-- Op tags below the original length are unchanged by appending. -/
theorem get_op_append (s t : Store α) (v : Nat) (hv : v < s.length) :
    Value.get_op (s ++ t) v = Value.get_op s v := by
  simp [Value.get_op, slot_append s t v hv]

/-- One `_backward` step never changes any data field. -/
theorem _backward_get_data (F : FloatOps α) (s : Store α) (v w : Nat) :
    Value.get_data (Value._backward F s v) w = Value.get_data s w := by
  unfold Value._backward
  cases hprev : Value.get_prev s v with
  | none => rfl
  | some ab =>
    obtain ⟨a, b⟩ := ab
    cases hop : Value.get_op s v with
    | none => rfl
    | some op => cases op <;> simp [get_data_update_grad]

/-- One `_backward` step never changes any `_prev` field. -/
theorem _backward_get_prev (F : FloatOps α) (s : Store α) (v w : Nat) :
    Value.get_prev (Value._backward F s v) w = Value.get_prev s w := by
  unfold Value._backward
  cases hprev : Value.get_prev s v with
  | none => rfl
  | some ab =>
    obtain ⟨a, b⟩ := ab
    cases hop : Value.get_op s v with
    | none => rfl
    | some op => cases op <;> simp [get_prev_update_grad]

/-- One `_backward` step never changes any `_op` field. -/
theorem _backward_get_op (F : FloatOps α) (s : Store α) (v w : Nat) :
    Value.get_op (Value._backward F s v) w = Value.get_op s w := by
  unfold Value._backward
  cases hprev : Value.get_prev s v with
  | none => rfl
  | some ab =>
    obtain ⟨a, b⟩ := ab
    cases hop : Value.get_op s v with
    | none => rfl
    | some op => cases op <;> simp [get_op_update_grad]

/-- One `_backward` step never changes the store's length. -/
theorem _backward_length (F : FloatOps α) (s : Store α) (v : Nat) :
    (Value._backward F s v).length = s.length := by
  unfold Value._backward
  cases hprev : Value.get_prev s v with
  | none => rfl
  | some ab =>
    obtain ⟨a, b⟩ := ab
    cases hop : Value.get_op s v with
    | none => rfl
    | some op => cases op <;> simp [update_grad_length]

/-- Frame property of one `_backward` step: only the grads of the two
operands can change. -/
theorem _backward_grad_frame (F : FloatOps α) (s : Store α) (v a b c : Nat)
    (hprev : Value.get_prev s v = some (a, b)) (hca : c ≠ a) (hcb : c ≠ b) :
    Value.get_grad (Value._backward F s v) c = Value.get_grad s c := by
  unfold Value._backward
  rw [hprev]
  cases hop : Value.get_op s v with
  | none => rfl
  | some op =>
    cases op <;> simp [get_grad_update_grad_ne _ _ _ _ hca, get_grad_update_grad_ne _ _ _ _ hcb]

/-- A leaf (no operands) is a no-op for `_backward`. -/
theorem _backward_of_prev_none (F : FloatOps α) (s : Store α) (v : Nat)
    (hprev : Value.get_prev s v = none) :
    Value._backward F s v = s := by
  unfold Value._backward
  rw [hprev]

/-- Folding `_backward` over nodes none of which has `c` as an operand
leaves `c`'s grad unchanged. -/
theorem foldl_backward_grad_frame (F : FloatOps α) :
    ∀ (l : List Nat) (s : Store α) (c : Nat),
      (∀ u ∈ l, ∀ a b, Value.get_prev s u = some (a, b) → a ≠ c ∧ b ≠ c) →
      Value.get_grad (l.foldl (fun st n => Value._backward F st n) s) c =
        Value.get_grad s c
  | [], s, c, _ => rfl
  | u :: l, s, c, h => by
    have hstep : Value.get_grad (Value._backward F s u) c = Value.get_grad s c := by
      cases hprev : Value.get_prev s u with
      | none => rw [_backward_of_prev_none F s u hprev]
      | some ab =>
        obtain ⟨a, b⟩ := ab
        obtain ⟨ha, hb⟩ := h u (List.mem_cons_self u l) a b hprev
        exact _backward_grad_frame F s u a b c hprev (Ne.symm ha) (Ne.symm hb)
    have hrest : ∀ u' ∈ l, ∀ a b,
        Value.get_prev (Value._backward F s u) u' = some (a, b) → a ≠ c ∧ b ≠ c := by
      intro u' hu' a b hp
      rw [_backward_get_prev] at hp
      exact h u' (List.mem_cons_of_mem u hu') a b hp
    calc Value.get_grad ((u :: l).foldl (fun st n => Value._backward F st n) s) c
        = Value.get_grad (l.foldl (fun st n => Value._backward F st n)
            (Value._backward F s u)) c := rfl
      _ = Value.get_grad (Value._backward F s u) c :=
          foldl_backward_grad_frame F l (Value._backward F s u) c hrest
      _ = Value.get_grad s c := hstep

/-- Folding `_backward` never changes data fields. -/
theorem foldl_backward_get_data (F : FloatOps α) :
    ∀ (l : List Nat) (s : Store α) (w : Nat),
      Value.get_data (l.foldl (fun st n => Value._backward F st n) s) w =
        Value.get_data s w
  | [], _, _ => rfl
  | u :: l, s, w => by
    calc Value.get_data ((u :: l).foldl (fun st n => Value._backward F st n) s) w
        = Value.get_data (l.foldl (fun st n => Value._backward F st n)
            (Value._backward F s u)) w := rfl
      _ = Value.get_data (Value._backward F s u) w :=
          foldl_backward_get_data F l (Value._backward F s u) w
      _ = Value.get_data s w := _backward_get_data F s u w

/-- Folding `_backward` never changes `_prev` fields. -/
theorem foldl_backward_get_prev (F : FloatOps α) :
    ∀ (l : List Nat) (s : Store α) (w : Nat),
      Value.get_prev (l.foldl (fun st n => Value._backward F st n) s) w =
        Value.get_prev s w
  | [], _, _ => rfl
  | u :: l, s, w => by
    calc Value.get_prev ((u :: l).foldl (fun st n => Value._backward F st n) s) w
        = Value.get_prev (l.foldl (fun st n => Value._backward F st n)
            (Value._backward F s u)) w := rfl
      _ = Value.get_prev (Value._backward F s u) w :=
          foldl_backward_get_prev F l (Value._backward F s u) w
      _ = Value.get_prev s w := _backward_get_prev F s u w

/-- Folding `_backward` never changes `_op` fields. -/
theorem foldl_backward_get_op (F : FloatOps α) :
    ∀ (l : List Nat) (s : Store α) (w : Nat),
      Value.get_op (l.foldl (fun st n => Value._backward F st n) s) w =
        Value.get_op s w
  | [], _, _ => rfl
  | u :: l, s, w => by
    calc Value.get_op ((u :: l).foldl (fun st n => Value._backward F st n) s) w
        = Value.get_op (l.foldl (fun st n => Value._backward F st n)
            (Value._backward F s u)) w := rfl
      _ = Value.get_op (Value._backward F s u) w :=
          foldl_backward_get_op F l (Value._backward F s u) w
      _ = Value.get_op s w := _backward_get_op F s u w

/-- Folding `_backward` never changes the store's length. -/
theorem foldl_backward_length (F : FloatOps α) :
    ∀ (l : List Nat) (s : Store α),
      (l.foldl (fun st n => Value._backward F st n) s).length = s.length
  | [], _ => rfl
  | u :: l, s => by
    calc ((u :: l).foldl (fun st n => Value._backward F st n) s).length
        = (l.foldl (fun st n => Value._backward F st n)
            (Value._backward F s u)).length := rfl
      _ = (Value._backward F s u).length := foldl_backward_length F l _
      _ = s.length := _backward_length F s u

/-- The whole backward pass never changes data fields. -/
theorem backward_get_data (F : FloatOps α) (s : Store α) (v w : Nat) :
    Value.get_data (Value.backward F s v) w = Value.get_data s w := by
  unfold Value.backward
  rw [foldl_backward_get_data, get_data_update_grad]

/-- The whole backward pass never changes `_prev` fields. -/
theorem backward_get_prev (F : FloatOps α) (s : Store α) (v w : Nat) :
    Value.get_prev (Value.backward F s v) w = Value.get_prev s w := by
  unfold Value.backward
  rw [foldl_backward_get_prev, get_prev_update_grad]

/-- The whole backward pass never changes `_op` fields. -/
theorem backward_get_op (F : FloatOps α) (s : Store α) (v w : Nat) :
    Value.get_op (Value.backward F s v) w = Value.get_op s w := by
  unfold Value.backward
  rw [foldl_backward_get_op, get_op_update_grad]

/-- The whole backward pass never changes the store's length. -/
theorem backward_length (F : FloatOps α) (s : Store α) (v : Nat) :
    (Value.backward F s v).length = s.length := by
  unfold Value.backward
  rw [foldl_backward_length, update_grad_length]

/-- `storeWF` unpacked: operands strictly precede their node. -/
theorem storeWF_iff (s : Store α) :
    storeWF s = true ↔
      ∀ i a b, Value.get_prev s i = some (a, b) → a < i ∧ b < i := by
  constructor
  · intro h i a b hprev
    unfold Value.get_prev at hprev
    cases hsl : s[i]? with
    | none => rw [hsl] at hprev; exact Option.noConfusion hprev
    | some nd =>
      rw [hsl] at hprev
      have hp : nd._prev = some (a, b) := hprev
      have hi : i < s.length := (List.getElem?_eq_some.mp hsl).1
      have hall := List.all_eq_true.mp h i (List.mem_range.mpr hi)
      rw [hsl] at hall
      have hall2 : nodeOk i nd = true := hall
      unfold nodeOk at hall2
      rw [hp] at hall2
      exact of_decide_eq_true hall2
  · intro h
    apply List.all_eq_true.mpr
    intro i hi
    show (match s[i]? with | some nd => nodeOk i nd | none => true) = true
    cases hsl : s[i]? with
    | none => rfl
    | some nd =>
      show nodeOk i nd = true
      unfold nodeOk
      cases hp : nd._prev with
      | none => rfl
      | some ab =>
        obtain ⟨a, b⟩ := ab
        apply decide_eq_true
        apply h i a b
        unfold Value.get_prev
        rw [hsl]
        exact hp

/-- Every handle that `build_topo` adds to the order is bounded by the
node it was reached from. -/
theorem build_topoF_mem (s : Store α) :
    ∀ (fuel v : Nat) (topo visited : List Nat) (u : Nat),
      u ∈ (build_topoF s fuel v topo visited).1 → u ∈ topo ∨ u ≤ v := by
  intro fuel
  induction fuel with
  | zero => intro v topo visited u hu; exact Or.inl hu
  | succ fuel ih =>
    intro v topo visited u hu
    rw [build_topoF] at hu
    by_cases hany : (visited.any fun x => structEq s x v) = true
    · simp only [if_pos hany] at hu; exact Or.inl hu
    · simp only [if_neg hany] at hu
      cases hprev : Value.get_prev s v with
      | none =>
        simp only [hprev] at hu
        rcases List.mem_append.mp hu with h | h
        · exact Or.inl h
        · exact Or.inr (Nat.le_of_eq (List.mem_singleton.mp h))
      | some ab =>
        obtain ⟨a, b⟩ := ab
        simp only [hprev] at hu
        by_cases hg : a < v ∧ b < v
        · simp only [if_pos hg] at hu
          rcases List.mem_append.mp hu with h | h
          · rcases ih b _ _ u h with h2 | h2
            · rcases ih a _ _ u h2 with h3 | h3
              · exact Or.inl h3
              · exact Or.inr (Nat.le_of_lt (Nat.lt_of_le_of_lt h3 hg.1))
            · exact Or.inr (Nat.le_of_lt (Nat.lt_of_le_of_lt h2 hg.2))
          · exact Or.inr (Nat.le_of_eq (List.mem_singleton.mp h))
        · simp only [if_neg hg] at hu
          rcases List.mem_append.mp hu with h | h
          · exact Or.inl h
          · exact Or.inr (Nat.le_of_eq (List.mem_singleton.mp h))

/-- The slot just appended. -/
theorem slot_append_self (s : Store α) (nd : _Value α) :
    (s ++ [nd])[s.length]? = some nd := by
  rw [List.getElem?_append_right (Nat.le_refl s.length)]
  simp

/-- Slots beyond an appended singleton are empty. -/
theorem slot_append_gt (s : Store α) (nd : _Value α) (i : Nat)
    (hi : s.length < i) : (s ++ [nd])[i]? = none := by
  apply List.getElem?_eq_none
  simp [Nat.succ_le_of_lt hi]

/-- Appending a node whose operands point into the old store preserves
well-formedness. -/
theorem storeWF_append_node (s : Store α) (nd : _Value α)
    (hWF : storeWF s = true)
    (hnd : ∀ a b, nd._prev = some (a, b) → a < s.length ∧ b < s.length) :
    storeWF (s ++ [nd]) = true := by
  rw [storeWF_iff]
  intro i a b hprev
  rcases Nat.lt_trichotomy i s.length with hi | hi | hi
  · rw [get_prev_append s [nd] i hi] at hprev
    exact (storeWF_iff s).mp hWF i a b hprev
  · subst hi
    unfold Value.get_prev at hprev
    rw [slot_append_self] at hprev
    exact hnd a b hprev
  · unfold Value.get_prev at hprev
    rw [slot_append_gt s nd i hi] at hprev
    exact Option.noConfusion hprev

/-- Unfolding of `backward` with its lets reduced. -/
theorem backward_unfold (F : FloatOps α) (s : Store α) (v : Nat) :
    Value.backward F s v =
      ((build_topo s v [] []).1.reverse).foldl (fun st n => Value._backward F st n)
        (Value.update_grad s v 1) := rfl

/-- Shared fan-out workhorse: if the root `y` is a `Mul` node whose two
operand slots are the same handle `x` (the `mul(x, x)` diamond), the
backward pass adds `2 * x.value` to `x`'s grad (both operand slots
contribute and are summed) and leaves the root's grad at its seed 1. -/
theorem mul_root_backward (F : FloatOps α) (s : Store α) (x y : Nat)
    (hWF : storeWF s = true) (hylen : y < s.length) (hxy : x < y)
    (hprev : Value.get_prev s y = some (x, x))
    (hop : Value.get_op s y = some Op.Mul) :
    Value.get_grad (Value.backward F s y) x =
      Value.get_grad s x + 2 * Value.get_data s x ∧
    Value.get_grad (Value.backward F s y) y = 1 := by
  have hxny : x ≠ y := Nat.ne_of_lt hxy
  have hxlen : x < s.length := Nat.lt_trans hxy hylen
  -- the computed order is (inner traversal of x) ++ [y]
  have htopo : (build_topo s y [] []).1 =
      (build_topoF s y x (build_topoF s y x [] [y]).1
        (build_topoF s y x [] [y]).2).1 ++ [y] := by
    rw [build_topo, build_topoF]
    simp [hprev, hxy]
  set t := (build_topoF s y x (build_topoF s y x [] [y]).1
    (build_topoF s y x [] [y]).2).1 with ht
  have htmem : ∀ u ∈ t, u ≤ x := by
    intro u hu
    rcases build_topoF_mem s y x _ _ u hu with h | h
    · rcases build_topoF_mem s y x _ _ u h with h2 | h2
      · exact absurd h2 (List.not_mem_nil u)
      · exact h2
    · exact h
  -- the seeded store
  have hg1y : Value.get_grad (Value.update_grad s y 1) y = 1 :=
    get_grad_update_grad_self s y 1 hylen
  have hg1x : Value.get_grad (Value.update_grad s y 1) x = Value.get_grad s x :=
    get_grad_update_grad_ne s y x 1 hxny
  have hd1x : Value.get_data (Value.update_grad s y 1) x = Value.get_data s x :=
    get_data_update_grad s y x 1
  have hxlen1 : x < (Value.update_grad s y 1).length := by
    rw [update_grad_length]; exact hxlen
  -- the root's step: both slots are x, two additive contributions
  have hs2eq : Value._backward F (Value.update_grad s y 1) y =
      Value.update_grad
        (Value.update_grad (Value.update_grad s y 1) x
          (Value.get_grad (Value.update_grad s y 1) x +
            Value.get_data (Value.update_grad s y 1) x *
              Value.get_grad (Value.update_grad s y 1) y)) x
        (Value.get_grad
            (Value.update_grad (Value.update_grad s y 1) x
              (Value.get_grad (Value.update_grad s y 1) x +
                Value.get_data (Value.update_grad s y 1) x *
                  Value.get_grad (Value.update_grad s y 1) y)) x +
          Value.get_data
            (Value.update_grad (Value.update_grad s y 1) x
              (Value.get_grad (Value.update_grad s y 1) x +
                Value.get_data (Value.update_grad s y 1) x *
                  Value.get_grad (Value.update_grad s y 1) y)) x *
          Value.get_grad
            (Value.update_grad (Value.update_grad s y 1) x
              (Value.get_grad (Value.update_grad s y 1) x +
                Value.get_data (Value.update_grad s y 1) x *
                  Value.get_grad (Value.update_grad s y 1) y)) y) := by
    unfold Value._backward
    rw [get_prev_update_grad, hprev, get_op_update_grad, hop]
  have e1 : Value.get_grad
      (Value.update_grad (Value.update_grad s y 1) x
        (Value.get_grad (Value.update_grad s y 1) x +
          Value.get_data (Value.update_grad s y 1) x *
            Value.get_grad (Value.update_grad s y 1) y)) x =
      Value.get_grad (Value.update_grad s y 1) x +
        Value.get_data (Value.update_grad s y 1) x *
          Value.get_grad (Value.update_grad s y 1) y :=
    get_grad_update_grad_self _ x _ hxlen1
  have e2 : Value.get_data
      (Value.update_grad (Value.update_grad s y 1) x
        (Value.get_grad (Value.update_grad s y 1) x +
          Value.get_data (Value.update_grad s y 1) x *
            Value.get_grad (Value.update_grad s y 1) y)) x =
      Value.get_data (Value.update_grad s y 1) x :=
    get_data_update_grad _ x x _
  have e3 : Value.get_grad
      (Value.update_grad (Value.update_grad s y 1) x
        (Value.get_grad (Value.update_grad s y 1) x +
          Value.get_data (Value.update_grad s y 1) x *
            Value.get_grad (Value.update_grad s y 1) y)) y =
      Value.get_grad (Value.update_grad s y 1) y :=
    get_grad_update_grad_ne _ x y _ (Ne.symm hxny)
  have hg2x : Value.get_grad (Value._backward F (Value.update_grad s y 1) y) x =
      Value.get_grad s x + Value.get_data s x + Value.get_data s x := by
    rw [hs2eq]
    rw [get_grad_update_grad_self _ x _ (by rw [update_grad_length]; exact hxlen1)]
    rw [e1, e2, e3, hg1x, hd1x, hg1y]
    ring
  have hg2y : Value.get_grad (Value._backward F (Value.update_grad s y 1) y) y = 1 := by
    rw [hs2eq]
    rw [get_grad_update_grad_ne _ x y _ (Ne.symm hxny)]
    rw [e3, hg1y]
  -- the remaining nodes are all ≤ x; none has x or y as an operand
  have hframe : ∀ c, x ≤ c →
      ∀ u ∈ t.reverse, ∀ a b,
        Value.get_prev (Value._backward F (Value.update_grad s y 1) y) u = some (a, b) →
        a ≠ c ∧ b ≠ c := by
    intro c hc u hu a b hp
    have hux : u ≤ x := htmem u (List.mem_reverse.mp hu)
    have hp2 : Value.get_prev s u = some (a, b) := by
      rw [_backward_get_prev, get_prev_update_grad] at hp
      exact hp
    obtain ⟨ha, hb⟩ := (storeWF_iff s).mp hWF u a b hp2
    constructor
    · exact Nat.ne_of_lt (Nat.lt_of_lt_of_le (Nat.lt_of_lt_of_le ha hux) hc)
    · exact Nat.ne_of_lt (Nat.lt_of_lt_of_le (Nat.lt_of_lt_of_le hb hux) hc)
  have hback : Value.backward F s y =
      t.reverse.foldl (fun st n => Value._backward F st n)
        (Value._backward F (Value.update_grad s y 1) y) := by
    rw [backward_unfold, htopo, List.reverse_append]
    simp only [List.reverse_cons, List.reverse_nil, List.nil_append,
      List.singleton_append, List.foldl_cons]
  constructor
  · rw [hback]
    rw [foldl_backward_grad_frame F t.reverse _ x (hframe x (Nat.le_refl x))]
    rw [hg2x]
    ring
  · rw [hback]
    rw [foldl_backward_grad_frame F t.reverse _ y (hframe y (Nat.le_of_lt hxy))]
    exact hg2y

/-- C5: fan-out accumulation.  For any valid node `x` with zero grad in a
well-formed store, building `y = mul(x, x)` and running backward from `y`
yields `x.grad = 2 * x.value`: both operand slots contribute and the two
contributions are summed. -/
theorem C5_fanout_accumulation (F : FloatOps α) (s : Store α) (x : Nat)
    (hWF : storeWF s = true) (hx : x < s.length)
    (hg : Value.get_grad s x = 0) :
    Value.get_grad
      (Value.backward F (Value.mul s x x).1 (Value.mul s x x).2) x =
      2 * Value.get_data s x := by
  have hWF' : storeWF (Value.mul s x x).1 = true := by
    apply storeWF_append_node s _ hWF
    intro a b hp
    have hp2 : some (x, x) = some (a, b) := hp
    injection hp2 with h2
    injection h2 with h3 h4
    exact ⟨h3 ▸ hx, h4 ▸ hx⟩
  have hprev : Value.get_prev (Value.mul s x x).1 (Value.mul s x x).2 = some (x, x) := by
    show Value.get_prev (s ++ [_]) s.length = some (x, x)
    unfold Value.get_prev
    rw [slot_append_self]
    rfl
  have hop : Value.get_op (Value.mul s x x).1 (Value.mul s x x).2 = some Op.Mul := by
    show Value.get_op (s ++ [_]) s.length = some Op.Mul
    unfold Value.get_op
    rw [slot_append_self]
    rfl
  have hylen : (Value.mul s x x).2 < (Value.mul s x x).1.length := by
    simp [Value.mul, Value.new_ext]
  obtain ⟨h1, _⟩ := mul_root_backward F (Value.mul s x x).1 x (Value.mul s x x).2
    hWF' hylen hx hprev hop
  rw [h1]
  rw [show Value.get_grad (Value.mul s x x).1 x = Value.get_grad s x from
    get_grad_append s _ x hx]
  rw [show Value.get_data (Value.mul s x x).1 x = Value.get_data s x from
    get_data_append s _ x hx]
  rw [hg]
  ring

/-- C5 witness: the one-leaf store `[3]` satisfies the hypotheses, and
backward through `mul(x, x)` gives `x.grad = 6 = 2 * 3`. -/
theorem C5_fanout_accumulation_witness :
    storeWF gLeaf3.1 = true ∧ gLeaf3.2 < gLeaf3.1.length ∧
    Value.get_grad gLeaf3.1 gLeaf3.2 = 0 ∧
    Value.get_grad
      (Value.backward Fid (Value.mul gLeaf3.1 gLeaf3.2 gLeaf3.2).1
        (Value.mul gLeaf3.1 gLeaf3.2 gLeaf3.2).2) gLeaf3.2 =
      2 * Value.get_data gLeaf3.1 gLeaf3.2 :=
  ⟨by decide, by decide, by decide,
    C5_fanout_accumulation Fid gLeaf3.1 gLeaf3.2 (by decide) (by decide) (by decide)⟩

/-- C8: the exponent operand of a `Power` node receives no gradient: the
`Pow` branch of `_backward` writes only the base's grad slot; every other
handle's grad — in particular the exponent's, when it is a different node
— and every data field is untouched. -/
theorem C8_pow_exponent_gets_no_grad (F : FloatOps α) (s : Store α) (v a b : Nat)
    (hop : Value.get_op s v = some Op.Pow)
    (hprev : Value.get_prev s v = some (a, b)) :
    (∀ c, c ≠ a → Value.get_grad (Value._backward F s v) c = Value.get_grad s c) ∧
    (b ≠ a → Value.get_grad (Value._backward F s v) b = Value.get_grad s b) ∧
    (∀ w, Value.get_data (Value._backward F s v) w = Value.get_data s w) := by
  have hstep : Value._backward F s v = Value.update_grad s a
      (Value.get_data s b * F.powf (Value.get_data s a) (Value.get_data s b - 1) *
        Value.get_grad s v) := by
    unfold Value._backward
    rw [hprev, hop]
  refine ⟨?_, ?_, ?_⟩
  · intro c hc
    rw [hstep]
    exact get_grad_update_grad_ne s a c _ hc
  · intro hb
    rw [hstep]
    exact get_grad_update_grad_ne s a b _ hb
  · intro w
    rw [hstep]
    exact get_data_update_grad s a w _

/-- C8 witness: the concrete `pow` graph `gPow` (base 0, exponent 1,
node 2) satisfies the hypotheses. -/
theorem C8_pow_exponent_gets_no_grad_witness :
    Value.get_op gPow.1 gPow.2 = some Op.Pow ∧
    Value.get_prev gPow.1 gPow.2 = some (0, 1) ∧
    ((∀ c, c ≠ 0 →
        Value.get_grad (Value._backward Fid gPow.1 gPow.2) c =
          Value.get_grad gPow.1 c) ∧
      ((1 : Nat) ≠ 0 →
        Value.get_grad (Value._backward Fid gPow.1 gPow.2) 1 =
          Value.get_grad gPow.1 1) ∧
      (∀ w, Value.get_data (Value._backward Fid gPow.1 gPow.2) w =
        Value.get_data gPow.1 w)) :=
  ⟨by decide, by decide,
    C8_pow_exponent_gets_no_grad Fid gPow.1 gPow.2 0 1 (by decide) (by decide)⟩

/-- Reading the data of a freshly allocated node. -/
theorem get_data_new_ext_self (s : Store α) (d : α) (ch : Option (Nat × Nat))
    (op : Option Op) :
    Value.get_data (Value.new_ext s d ch op).1 (Value.new_ext s d ch op).2 = d := by
  show Value.get_data (s ++ [_]) s.length = d
  unfold Value.get_data
  rw [slot_append_self]
  rfl

/-- Reading the op tag of a freshly allocated node. -/
theorem get_op_new_ext_self (s : Store α) (d : α) (ch : Option (Nat × Nat))
    (op : Option Op) :
    Value.get_op (Value.new_ext s d ch op).1 (Value.new_ext s d ch op).2 = op := by
  show Value.get_op (s ++ [_]) s.length = op
  unfold Value.get_op
  rw [slot_append_self]
  rfl

/-- Pulling an additive fold's seed out in front. -/
theorem foldl_add_init (l : List (Nat × Nat)) (f : Nat × Nat → α) (c : α) :
    l.foldl (fun acc p => acc + f p) c = c + l.foldl (fun acc p => acc + f p) 0 := by
  induction l generalizing c with
  | nil => simp
  | cons p l ih =>
    simp only [List.foldl_cons]
    rw [ih (c + f p), ih (0 + f p)]
    ring

/-- One step of the weighted-sum fold in `Neuron::call`
(`acc.add(weight.mul(input))`): it appends a `Mul` node and an `Add`
node, returns the `Add` node's handle, and the new running value is the
old one plus `weight.value * input.value`. -/
theorem neuron_step_spec (S : Store α) (acc w x : Nat) (hacc : acc < S.length) :
    ∃ u : Store α,
      Value.add (Value.mul S w x).1 acc (Value.mul S w x).2 =
        (S ++ u, S.length + 1) ∧
      S.length + 1 < (S ++ u).length ∧
      Value.get_data (S ++ u) (S.length + 1) =
        Value.get_data S acc + Value.get_data S w * Value.get_data S x := by
  set m : _Value α :=
    ⟨Value.get_data S w * Value.get_data S x, some (w, x), some Op.Mul, 0⟩ with hm
  set a : _Value α :=
    ⟨Value.get_data (S ++ [m]) acc + Value.get_data (S ++ [m]) S.length,
      some (acc, S.length), some Op.Add, 0⟩ with ha
  have hpair : Value.add (Value.mul S w x).1 acc (Value.mul S w x).2 =
      (S ++ ([m] ++ [a]), S.length + 1) := by
    show ((S ++ [m]) ++ [a], (S ++ [m]).length) = (S ++ ([m] ++ [a]), S.length + 1)
    rw [List.append_assoc]
    simp
  refine ⟨[m] ++ [a], hpair, ?_, ?_⟩
  · simp
  · have hassoc : S ++ ([m] ++ [a]) = (S ++ [m]) ++ [a] := (List.append_assoc S [m] [a]).symm
    have h1 : (S ++ [m]).length = S.length + 1 := by simp
    have h2 : Value.get_data ((S ++ [m]) ++ [a]) ((S ++ [m]).length) =
        Value.get_data (S ++ [m]) acc + Value.get_data (S ++ [m]) S.length := by
      unfold Value.get_data
      rw [slot_append_self]
      rfl
    have h3 : Value.get_data (S ++ [m]) S.length =
        Value.get_data S w * Value.get_data S x := by
      unfold Value.get_data
      rw [slot_append_self]
      rfl
    rw [hassoc, ← h1, h2, h3, get_data_append S [m] acc hacc]

/-- Specification of the weighted-sum fold inside `Neuron::call`: it only
appends nodes, keeps the running handle in bounds, and the running node's
data accumulates `Σ weight_i * input_i` over the original store's
values. -/
theorem neuron_fold_spec (s : Store α) :
    ∀ (pairs : List (Nat × Nat)),
      (∀ p ∈ pairs, p.1 < s.length ∧ p.2 < s.length) →
      ∀ (t : Store α) (accId : Nat), accId < (s ++ t).length →
      ∃ t2,
        (pairs.foldl
          (fun (p : Store α × Nat) (wx : Nat × Nat) =>
            let m := Value.mul p.1 wx.1 wx.2
            Value.add m.1 p.2 m.2) (s ++ t, accId)) =
          (s ++ t2,
            (pairs.foldl
              (fun (p : Store α × Nat) (wx : Nat × Nat) =>
                let m := Value.mul p.1 wx.1 wx.2
                Value.add m.1 p.2 m.2) (s ++ t, accId)).2) ∧
        (pairs.foldl
          (fun (p : Store α × Nat) (wx : Nat × Nat) =>
            let m := Value.mul p.1 wx.1 wx.2
            Value.add m.1 p.2 m.2) (s ++ t, accId)).2 < (s ++ t2).length ∧
        Value.get_data (s ++ t2)
          (pairs.foldl
            (fun (p : Store α × Nat) (wx : Nat × Nat) =>
              let m := Value.mul p.1 wx.1 wx.2
              Value.add m.1 p.2 m.2) (s ++ t, accId)).2 =
          Value.get_data (s ++ t) accId +
            pairs.foldl
              (fun acc p => acc + Value.get_data s p.1 * Value.get_data s p.2) 0 := by
  intro pairs
  induction pairs with
  | nil =>
    intro _ t accId hacc
    exact ⟨t, rfl, hacc, by simp⟩
  | cons wx rest ih =>
    intro hmem t accId hacc
    obtain ⟨hw, hx⟩ := hmem wx (List.mem_cons_self wx rest)
    obtain ⟨u, hpair, hlt, hdata⟩ := neuron_step_spec (s ++ t) accId wx.1 wx.2 hacc
    simp only [List.foldl_cons]
    rw [hpair, List.append_assoc]
    have hacc2 : (s ++ t).length + 1 < (s ++ (t ++ u)).length := by
      rw [← List.append_assoc]
      exact hlt
    obtain ⟨t2, hst2, hlt2, hdata2⟩ :=
      ih (fun p hp => hmem p (List.mem_cons_of_mem _ hp)) (t ++ u)
        ((s ++ t).length + 1) hacc2
    refine ⟨t2, hst2, hlt2, ?_⟩
    rw [hdata2]
    have hd3 : Value.get_data (s ++ (t ++ u)) ((s ++ t).length + 1) =
        Value.get_data (s ++ t) accId +
          Value.get_data s wx.1 * Value.get_data s wx.2 := by
      rw [← List.append_assoc, hdata, get_data_append s t wx.1 hw,
        get_data_append s t wx.2 hx]
    rw [hd3, foldl_add_init rest
      (fun p => Value.get_data s p.1 * Value.get_data s p.2)
      (0 + Value.get_data s wx.1 * Value.get_data s wx.2)]
    ring

/-- Store component of `Value.add`, explicitly. -/
theorem add_store_ext (S : Store α) (a b : Nat) :
    (Value.add S a b).1 =
      S ++ [⟨Value.get_data S a + Value.get_data S b, some (a, b), some Op.Add, 0⟩] := rfl

/-- Handle component of `Value.add`, explicitly. -/
theorem add_id_eq (S : Store α) (a b : Nat) : (Value.add S a b).2 = S.length := rfl

/-- Store component of `Value.tanh`, explicitly. -/
theorem tanh_store_ext (F : FloatOps α) (S : Store α) (v : Nat) :
    (Value.tanh F S v).1 =
      S ++ [⟨F.tanh (Value.get_data S v), some (v, v), some Op.Tanh, 0⟩] := rfl

/-- Specification of `Neuron::call` on matching arity: the call succeeds,
only appends nodes, and the returned node is a `Tanh` node whose value is
`tanh(Σ weight_i * input_i + bias)` over the original store's values. -/
theorem neuron_call_spec (F : FloatOps α) (s : Store α) (n : Neuron)
    (inputs : List Nat) (hlen : n.w.length = inputs.length)
    (hw : ∀ w ∈ n.w, w < s.length) (hxs : ∀ v ∈ inputs, v < s.length)
    (hb : n.b < s.length) :
    ∃ s' o, Neuron.call F s n inputs = Except.ok (s', o) ∧
      (∃ t, s' = s ++ t) ∧
      Value.get_op s' o = some Op.Tanh ∧
      Value.get_data s' o =
        F.tanh ((n.w.zip inputs).foldl
          (fun acc p => acc + Value.get_data s p.1 * Value.get_data s p.2) 0 +
          Value.get_data s n.b) := by
  have hmem : ∀ p ∈ n.w.zip inputs, p.1 < s.length ∧ p.2 < s.length := by
    intro p hp
    obtain ⟨h1, h2⟩ := List.of_mem_zip hp
    exact ⟨hw p.1 h1, hxs p.2 h2⟩
  obtain ⟨t2, hfold, hlt2, hdata2⟩ := neuron_fold_spec s (n.w.zip inputs) hmem
    [(⟨0, none, none, 0⟩ : _Value α)] s.length (by simp)
  have hz0 : Value.get_data (s ++ [(⟨0, none, none, 0⟩ : _Value α)]) s.length = 0 := by
    unfold Value.get_data
    rw [slot_append_self]
    rfl
  -- abbreviations for the fold result and the two final nodes
  have hA1 : ((n.w.zip inputs).foldl
      (fun (p : Store α × Nat) (wx : Nat × Nat) =>
        let m := Value.mul p.1 wx.1 wx.2
        Value.add m.1 p.2 m.2)
      (s ++ [(⟨0, none, none, 0⟩ : _Value α)], s.length)).1 = s ++ t2 :=
    congrArg Prod.fst hfold
  set A := (n.w.zip inputs).foldl
    (fun (p : Store α × Nat) (wx : Nat × Nat) =>
      let m := Value.mul p.1 wx.1 wx.2
      Value.add m.1 p.2 m.2)
    (s ++ [(⟨0, none, none, 0⟩ : _Value α)], s.length) with hA
  have hcall : Neuron.call F s n inputs =
      Except.ok (Value.tanh F (Value.add A.1 A.2 n.b).1 (Value.add A.1 A.2 n.b).2) := by
    unfold Neuron.call
    rw [if_pos hlen]
    rfl
  refine ⟨(Value.tanh F (Value.add A.1 A.2 n.b).1 (Value.add A.1 A.2 n.b).2).1,
    (Value.tanh F (Value.add A.1 A.2 n.b).1 (Value.add A.1 A.2 n.b).2).2,
    by rw [hcall], ?_, ?_, ?_⟩
  · refine ⟨t2 ++
      [⟨Value.get_data A.1 A.2 + Value.get_data A.1 n.b, some (A.2, n.b), some Op.Add, 0⟩] ++
      [⟨F.tanh (Value.get_data (Value.add A.1 A.2 n.b).1 (Value.add A.1 A.2 n.b).2),
        some ((Value.add A.1 A.2 n.b).2, (Value.add A.1 A.2 n.b).2), some Op.Tanh, 0⟩], ?_⟩
    rw [tanh_store_ext, add_store_ext, hA1]
    simp [List.append_assoc]
  · exact get_op_new_ext_self _ _ _ _
  · have hdt : Value.get_data
        (Value.tanh F (Value.add A.1 A.2 n.b).1 (Value.add A.1 A.2 n.b).2).1
        (Value.tanh F (Value.add A.1 A.2 n.b).1 (Value.add A.1 A.2 n.b).2).2 =
        F.tanh (Value.get_data (Value.add A.1 A.2 n.b).1 (Value.add A.1 A.2 n.b).2) :=
      get_data_new_ext_self _ _ _ _
    have hda : Value.get_data (Value.add A.1 A.2 n.b).1 (Value.add A.1 A.2 n.b).2 =
        Value.get_data A.1 A.2 + Value.get_data A.1 n.b :=
      get_data_new_ext_self _ _ _ _
    have hdacc : Value.get_data A.1 A.2 =
        0 + (n.w.zip inputs).foldl
          (fun acc p => acc + Value.get_data s p.1 * Value.get_data s p.2) 0 := by
      rw [hA1]
      rw [hz0] at hdata2
      exact hdata2
    have hdb : Value.get_data A.1 n.b = Value.get_data s n.b := by
      rw [hA1]
      exact get_data_append s t2 n.b hb
    rw [hdt, hda, hdacc, hdb]
    congr 1
    ring

/-- C9: `Neuron::call` (`forward`) fails with the input-arity error
exactly when the input count differs from the weight count — nothing is
truncated or padded — and on matching arity returns a fresh `Tanh` node
whose value is `tanh(Σ weight_i * input_i + bias)`, built from the graph
operators (the store is only extended, never rewritten). -/
theorem C9_neuron_arity_and_formula (F : FloatOps α) (s : Store α) (n : Neuron)
    (inputs : List Nat)
    (hw : ∀ w ∈ n.w, w < s.length) (hxs : ∀ v ∈ inputs, v < s.length)
    (hb : n.b < s.length) :
    (n.w.length ≠ inputs.length →
      Neuron.call F s n inputs =
        Except.error "Input size must match number of weights.") ∧
    (n.w.length = inputs.length →
      ∃ s' o, Neuron.call F s n inputs = Except.ok (s', o) ∧
        (∃ t, s' = s ++ t) ∧
        Value.get_op s' o = some Op.Tanh ∧
        Value.get_data s' o =
          F.tanh ((n.w.zip inputs).foldl
            (fun acc p => acc + Value.get_data s p.1 * Value.get_data s p.2) 0 +
            Value.get_data s n.b)) := by
  constructor
  · intro hne
    unfold Neuron.call
    rw [if_neg hne]
  · intro hlen
    exact neuron_call_spec F s n inputs hlen hw hxs hb

/-- C9 witness: a 1-weight neuron over the 3-node store `gPow.1 ++ input
leaf`; the mismatched call errors and the matched call returns the
formula value. -/
theorem C9_neuron_arity_and_formula_witness :
    (∀ w ∈ [0], w < gPow.1.length) ∧ (∀ v ∈ [2], v < gPow.1.length) ∧
      (1 : Nat) < gPow.1.length ∧
    ((([0] : List Nat).length ≠ ([] : List Nat).length →
        Neuron.call Fid gPow.1 ⟨[0], 1⟩ [] =
          Except.error "Input size must match number of weights.") ∧
      (([0] : List Nat).length = ([2] : List Nat).length →
        ∃ s' o, Neuron.call Fid gPow.1 ⟨[0], 1⟩ [2] = Except.ok (s', o) ∧
          (∃ t, s' = gPow.1 ++ t) ∧
          Value.get_op s' o = some Op.Tanh ∧
          Value.get_data s' o =
            Fid.tanh ((([0] : List Nat).zip [2]).foldl
              (fun acc p => acc + Value.get_data gPow.1 p.1 * Value.get_data gPow.1 p.2) 0 +
              Value.get_data gPow.1 1))) :=
  ⟨by decide, by decide, by decide,
    ⟨(C9_neuron_arity_and_formula Fid gPow.1 ⟨[0], 1⟩ []
        (by decide) (by decide) (by decide)).1,
      (C9_neuron_arity_and_formula Fid gPow.1 ⟨[0], 1⟩ [2]
        (by decide) (by decide) (by decide)).2⟩⟩

/-- C7: handles alias one mutable storage.  The handle at position `i` of
`parameters()` is the same arena index as the neuron's i-th weight; a
grad or data written through it is read back through any handle equal to
it; and a forward pass run after `update_data` through the parameters
handle computes with the updated weight storage (the graph references the
parameter's own slot, not a copy). -/
theorem C7_handles_alias_shared_storage (F : FloatOps α) (s : Store α) (n : Neuron)
    (inputs : List Nat) (i : Nat) (x g : α)
    (hi : i < n.w.length) (hlen : n.w.length = inputs.length)
    (hw : ∀ w ∈ n.w, w < s.length) (hxs : ∀ v ∈ inputs, v < s.length)
    (hb : n.b < s.length) :
    (Neuron.parameters n)[i]? = some (n.w.get ⟨i, hi⟩) ∧
    Value.get_grad (Value.update_grad s (n.w.get ⟨i, hi⟩) g) (n.w.get ⟨i, hi⟩) = g ∧
    Value.get_data (Value.update_data s (n.w.get ⟨i, hi⟩) x) (n.w.get ⟨i, hi⟩) = x ∧
    (∃ s' o, Neuron.call F (Value.update_data s (n.w.get ⟨i, hi⟩) x) n inputs =
        Except.ok (s', o) ∧
      Value.get_data s' o =
        F.tanh ((n.w.zip inputs).foldl
          (fun acc p =>
            acc + Value.get_data (Value.update_data s (n.w.get ⟨i, hi⟩) x) p.1 *
              Value.get_data (Value.update_data s (n.w.get ⟨i, hi⟩) x) p.2) 0 +
          Value.get_data (Value.update_data s (n.w.get ⟨i, hi⟩) x) n.b)) := by
  have hwlt : n.w.get ⟨i, hi⟩ < s.length := hw _ (List.get_mem n.w i hi)
  have hlens : (Value.update_data s (n.w.get ⟨i, hi⟩) x).length = s.length :=
    update_data_length s _ x
  refine ⟨?_, ?_, ?_, ?_⟩
  · unfold Neuron.parameters
    rw [List.getElem?_append, if_pos hi, List.getElem?_eq_getElem hi]
    rfl
  · exact get_grad_update_grad_self s _ g hwlt
  · exact get_data_update_data_self s _ x hwlt
  · obtain ⟨s', o, hcall, _, _, hdata⟩ :=
      neuron_call_spec F (Value.update_data s (n.w.get ⟨i, hi⟩) x) n inputs hlen
        (fun w hw2 => hlens ▸ hw w hw2) (fun v hv => hlens ▸ hxs v hv)
        (hlens ▸ hb)
    exact ⟨s', o, hcall, hdata⟩

/-- C7 witness: neuron `w = [0], b = 1` over `gPow.1`, updating the first
parameter's data to 7 and calling forward on input handle 2. -/
theorem C7_handles_alias_shared_storage_witness :
    (0 : Nat) < ([0] : List Nat).length ∧
    ([0] : List Nat).length = ([2] : List Nat).length ∧
    (∀ w ∈ [0], w < gPow.1.length) ∧ (∀ v ∈ [2], v < gPow.1.length) ∧
      (1 : Nat) < gPow.1.length ∧
    ((Neuron.parameters ⟨[0], 1⟩)[0]? = some (([0] : List Nat).get ⟨0, by decide⟩) ∧
      Value.get_grad (Value.update_grad gPow.1 (([0] : List Nat).get ⟨0, by decide⟩) 9)
        (([0] : List Nat).get ⟨0, by decide⟩) = 9 ∧
      Value.get_data (Value.update_data gPow.1 (([0] : List Nat).get ⟨0, by decide⟩) 7)
        (([0] : List Nat).get ⟨0, by decide⟩) = 7 ∧
      (∃ s' o, Neuron.call Fid
          (Value.update_data gPow.1 (([0] : List Nat).get ⟨0, by decide⟩) 7) ⟨[0], 1⟩ [2] =
          Except.ok (s', o) ∧
        Value.get_data s' o =
          Fid.tanh ((([0] : List Nat).zip [2]).foldl
            (fun acc p =>
              acc + Value.get_data
                  (Value.update_data gPow.1 (([0] : List Nat).get ⟨0, by decide⟩) 7) p.1 *
                Value.get_data
                  (Value.update_data gPow.1 (([0] : List Nat).get ⟨0, by decide⟩) 7) p.2) 0 +
            Value.get_data
              (Value.update_data gPow.1 (([0] : List Nat).get ⟨0, by decide⟩) 7) 1))) :=
  ⟨by decide, by decide, by decide, by decide, by decide,
    C7_handles_alias_shared_storage Fid gPow.1 ⟨[0], 1⟩ [2] 0 7 9
      (by decide) (by decide) (by decide) (by decide) (by decide)⟩

/-- The weighted-sum fold only ever appends to the store. -/
theorem foldl_muladd_ext :
    ∀ (pairs : List (Nat × Nat)) (P : Store α × Nat),
      ∃ u, (pairs.foldl
        (fun (p : Store α × Nat) (wx : Nat × Nat) =>
          let m := Value.mul p.1 wx.1 wx.2
          Value.add m.1 p.2 m.2) P).1 = P.1 ++ u
  | [], P => ⟨[], (List.append_nil P.1).symm⟩
  | wx :: rest, P => by
    simp only [List.foldl_cons]
    obtain ⟨u, hu⟩ := foldl_muladd_ext rest
      (Value.add (Value.mul P.1 wx.1 wx.2).1 P.2 (Value.mul P.1 wx.1 wx.2).2)
    obtain ⟨u1, h1⟩ : ∃ u1, (Value.mul P.1 wx.1 wx.2).1 = P.1 ++ u1 := ⟨_, rfl⟩
    obtain ⟨u2, h2⟩ : ∃ u2,
        (Value.add (Value.mul P.1 wx.1 wx.2).1 P.2 (Value.mul P.1 wx.1 wx.2).2).1 =
          (Value.mul P.1 wx.1 wx.2).1 ++ u2 := ⟨_, rfl⟩
    refine ⟨u1 ++ u2 ++ u, ?_⟩
    rw [hu, h2, h1]
    simp [List.append_assoc]

/-- `Neuron::call` with matching arity succeeds and only appends. -/
theorem neuron_call_ext (F : FloatOps α) (s : Store α) (n : Neuron)
    (inputs : List Nat) (hlen : n.w.length = inputs.length) :
    ∃ t o, Neuron.call F s n inputs = Except.ok (s ++ t, o) := by
  obtain ⟨u, hu⟩ := foldl_muladd_ext (α := α) (n.w.zip inputs)
    ((Value.new s 0).1, (Value.new s 0).2)
  set A := (n.w.zip inputs).foldl
    (fun (p : Store α × Nat) (wx : Nat × Nat) =>
      let m := Value.mul p.1 wx.1 wx.2
      Value.add m.1 p.2 m.2) ((Value.new s 0).1, (Value.new s 0).2) with hA
  have hcall : Neuron.call F s n inputs =
      Except.ok (Value.tanh F (Value.add A.1 A.2 n.b).1 (Value.add A.1 A.2 n.b).2) := by
    unfold Neuron.call
    rw [if_pos hlen]
  have hnew1 : ((Value.new s 0 : Store α × Nat)).1 =
      s ++ [(⟨0, none, none, 0⟩ : _Value α)] := rfl
  have hstore : (Value.tanh F (Value.add A.1 A.2 n.b).1 (Value.add A.1 A.2 n.b).2).1 =
      s ++ ([(⟨0, none, none, 0⟩ : _Value α)] ++ u ++
        [⟨Value.get_data A.1 A.2 + Value.get_data A.1 n.b, some (A.2, n.b),
          some Op.Add, 0⟩] ++
        [⟨F.tanh (Value.get_data (Value.add A.1 A.2 n.b).1 (Value.add A.1 A.2 n.b).2),
          some ((Value.add A.1 A.2 n.b).2, (Value.add A.1 A.2 n.b).2),
          some Op.Tanh, 0⟩]) := by
    rw [tanh_store_ext, add_store_ext]
    rw [show A.1 = s ++ ([(⟨0, none, none, 0⟩ : _Value α)] ++ u) by
      rw [← List.append_assoc, ← hnew1]; exact hu]
    simp [List.append_assoc]
  refine ⟨[(⟨0, none, none, 0⟩ : _Value α)] ++ u ++
      [⟨Value.get_data A.1 A.2 + Value.get_data A.1 n.b, some (A.2, n.b),
        some Op.Add, 0⟩] ++
      [⟨F.tanh (Value.get_data (Value.add A.1 A.2 n.b).1 (Value.add A.1 A.2 n.b).2),
        some ((Value.add A.1 A.2 n.b).2, (Value.add A.1 A.2 n.b).2),
        some Op.Tanh, 0⟩],
    (Value.tanh F (Value.add A.1 A.2 n.b).1 (Value.add A.1 A.2 n.b).2).2, ?_⟩
  rw [hcall, ← hstore]

/-- The per-neuron fold of `Layer::call` succeeds when every neuron's
arity matches, only appends to the store, and emits one output handle
per neuron. -/
theorem layer_foldlM_spec (F : FloatOps α) (inputs : List Nat) :
    ∀ (neurons : List Neuron) (P : Store α × List Nat),
      (∀ nr ∈ neurons, nr.w.length = inputs.length) →
      ∃ t outs,
        (neurons.foldlM
          (fun (p : Store α × List Nat) n => do
            let r ← Neuron.call F p.1 n inputs
            pure (r.1, p.2 ++ [r.2])) P) = Except.ok (P.1 ++ t, outs) ∧
        outs.length = P.2.length + neurons.length
  | [], P, _ => ⟨[], P.2, by simp; rfl, by simp⟩
  | nr :: rest, P, h => by
    obtain ⟨t1, o1, hcall⟩ := neuron_call_ext F P.1 nr inputs
      (h nr (List.mem_cons_self nr rest))
    obtain ⟨t2, outs, hfold, houts⟩ := layer_foldlM_spec F inputs rest
      (P.1 ++ t1, P.2 ++ [o1]) (fun x hx => h x (List.mem_cons_of_mem nr hx))
    refine ⟨t1 ++ t2, outs, ?_, ?_⟩
    · rw [List.foldlM_cons, hcall]
      show rest.foldlM _ (P.1 ++ t1, P.2 ++ [o1]) = _
      rw [hfold, List.append_assoc]
    · rw [houts]
      simp
      omega

/-- `Layer::call` succeeds when every neuron's arity matches, appends
only, and returns `n_out` output handles. -/
theorem layer_call_spec (F : FloatOps α) (s : Store α) (l : Layer)
    (inputs : List Nat) (h : ∀ nr ∈ l.neurons, nr.w.length = inputs.length) :
    ∃ t outs, Layer.call F s l inputs = Except.ok (s ++ t, outs) ∧
      outs.length = l.neurons.length := by
  obtain ⟨t, outs, h1, h2⟩ := layer_foldlM_spec F inputs l.neurons (s, []) h
  exact ⟨t, outs, h1, by simpa using h2⟩

/-- The layer-threading fold of `MLP::call` succeeds along a size chain,
appends only, and ends with `layer_sizes.getLastD n_in` outputs. -/
theorem layers_foldlM_spec (F : FloatOps α) :
    ∀ (layers : List Layer) (nouts : List Nat) (nin : Nat) (P : Store α × List Nat),
      chainOk nin layers nouts → P.2.length = nin →
      ∃ t outs,
        (layers.foldlM
          (fun (p : Store α × List Nat) l => Layer.call F p.1 l p.2) P) =
          Except.ok (P.1 ++ t, outs) ∧
        outs.length = nouts.getLastD nin
  | [], [], nin, P, _, hP => ⟨[], P.2, by simp; rfl, by simpa using hP⟩
  | [], m :: ms, nin, P, hch, _ => absurd hch (by simp [chainOk])
  | l :: ls, [], nin, P, hch, _ => absurd hch (by simp [chainOk])
  | l :: ls, m :: ms, nin, P, hch, hP => by
    obtain ⟨hm, hws, hrest⟩ := hch
    obtain ⟨t1, outs1, hcall, houts1⟩ := layer_call_spec F P.1 l P.2
      (fun nr hnr => by rw [hws nr hnr, hP])
    obtain ⟨t2, outs, hfold, houts⟩ := layers_foldlM_spec F ls ms m
      (P.1 ++ t1, outs1) hrest (by rw [houts1, hm])
    refine ⟨t1 ++ t2, outs, ?_, ?_⟩
    · rw [List.foldlM_cons, hcall]
      show ls.foldlM _ (P.1 ++ t1, outs1) = _
      rw [hfold, List.append_assoc]
    · rw [houts, List.getLastD_cons]

/-- The input-wrapping fold of `MLP::call`: it appends one fresh leaf per
raw input and returns one handle per input. -/
theorem wrap_spec :
    ∀ (inputs : List α) (P : Store α × List Nat),
      (inputs.foldl
        (fun (p : Store α × List Nat) x =>
          let q := Value.new p.1 x
          (q.1, p.2 ++ [q.2])) P).1 =
        P.1 ++ inputs.map (fun x => (⟨x, none, none, 0⟩ : _Value α)) ∧
      (inputs.foldl
        (fun (p : Store α × List Nat) x =>
          let q := Value.new p.1 x
          (q.1, p.2 ++ [q.2])) P).2.length = P.2.length + inputs.length
  | [], P => ⟨by simp, by simp⟩
  | x :: rest, P => by
    simp only [List.foldl_cons]
    obtain ⟨h1, h2⟩ := wrap_spec rest
      ((P.1 ++ [(⟨x, none, none, 0⟩ : _Value α)]), P.2 ++ [P.1.length])
    constructor
    · show (rest.foldl _ ((P.1 ++ [(⟨x, none, none, 0⟩ : _Value α)]), P.2 ++ [P.1.length])).1 = _
      rw [h1, List.map_cons, List.append_assoc]
      rfl
    · show (rest.foldl _ ((P.1 ++ [(⟨x, none, none, 0⟩ : _Value α)]), P.2 ++ [P.1.length])).2.length = _
      rw [h2]
      simp
      omega

/-- The weight fold of `Neuron::new` draws one leaf per step. -/
theorem neuron_new_fold_length (rng : Nat → α) :
    ∀ (l : List Nat) (acc : Store α × List Nat × Nat),
      ((l.foldl
        (fun (acc : Store α × List Nat × Nat) _ =>
          let p := Value.new acc.1 (rng acc.2.2)
          (p.1, acc.2.1 ++ [p.2], acc.2.2 + 1)) acc).2.1).length =
        acc.2.1.length + l.length
  | [], _ => by simp
  | _ :: rest, acc => by
    simp only [List.foldl_cons]
    rw [neuron_new_fold_length rng rest]
    simp
    omega

/-- `Neuron::new` creates exactly `nin` weights. -/
theorem neuron_new_w_length (rng : Nat → α) (k : Nat) (s : Store α) (nin : Nat) :
    (Neuron.new rng k s nin).2.1.w.length = nin := by
  unfold Neuron.new
  show ((List.range nin).foldl _ (s, [], k)).2.1.length = nin
  rw [neuron_new_fold_length rng (List.range nin) (s, [], k)]
  simp

/-- The neuron fold of `Layer::new` makes one `nin`-input neuron per
step. -/
theorem layer_new_fold_spec (rng : Nat → α) (nin : Nat) :
    ∀ (l : List Nat) (acc : Store α × List Neuron × Nat),
      ((l.foldl
        (fun (acc : Store α × List Neuron × Nat) _ =>
          let p := Neuron.new rng acc.2.2 acc.1 nin
          (p.1, acc.2.1 ++ [p.2.1], p.2.2)) acc).2.1).length =
        acc.2.1.length + l.length ∧
      ∀ nr ∈ ((l.foldl
        (fun (acc : Store α × List Neuron × Nat) _ =>
          let p := Neuron.new rng acc.2.2 acc.1 nin
          (p.1, acc.2.1 ++ [p.2.1], p.2.2)) acc).2.1),
        nr ∈ acc.2.1 ∨ nr.w.length = nin
  | [], _ => ⟨by simp, fun nr h => Or.inl h⟩
  | _ :: rest, acc => by
    simp only [List.foldl_cons]
    obtain ⟨h1, h2⟩ := layer_new_fold_spec rng nin rest
      ((Neuron.new rng acc.2.2 acc.1 nin).1,
        acc.2.1 ++ [(Neuron.new rng acc.2.2 acc.1 nin).2.1],
        (Neuron.new rng acc.2.2 acc.1 nin).2.2)
    constructor
    · rw [h1]
      simp
      omega
    · intro nr hnr
      rcases h2 nr hnr with h | h
      · rcases List.mem_append.mp h with h3 | h3
        · exact Or.inl h3
        · exact Or.inr (List.mem_singleton.mp h3 ▸ neuron_new_w_length rng acc.2.2 acc.1 nin)
      · exact Or.inr h

/-- `Layer::new` creates `nout` neurons with `nin` weights each. -/
theorem layer_new_spec (rng : Nat → α) (k : Nat) (s : Store α) (nin nout : Nat) :
    (Layer.new rng k s nin nout).2.1.neurons.length = nout ∧
    ∀ nr ∈ (Layer.new rng k s nin nout).2.1.neurons, nr.w.length = nin := by
  obtain ⟨h1, h2⟩ := layer_new_fold_spec rng nin (List.range nout) (s, [], k)
  constructor
  · show ((List.range nout).foldl _ (s, [], k)).2.1.length = nout
    rw [h1]
    simp
  · intro nr hnr
    rcases h2 nr hnr with h | h
    · exact absurd h (List.not_mem_nil nr)
    · exact h

/-- The layer fold of `MLP::new` produces a size-chained layer list. -/
theorem mlp_fold_chainOk (rng : Nat → α) :
    ∀ (nouts : List Nat) (nin k : Nat) (s : Store α) (pre : List Layer),
      ∃ suffix,
        (((nin :: nouts).zip nouts).foldl
          (fun (acc : Store α × List Layer × Nat) (p : Nat × Nat) =>
            let q := Layer.new rng acc.2.2 acc.1 p.1 p.2
            (q.1, acc.2.1 ++ [q.2.1], q.2.2)) (s, pre, k)).2.1 = pre ++ suffix ∧
        chainOk nin suffix nouts
  | [], nin, k, s, pre => ⟨[], by simp, trivial⟩
  | m :: ms, nin, k, s, pre => by
    rw [List.zip_cons_cons, List.foldl_cons]
    obtain ⟨suffix, heq, hch⟩ := mlp_fold_chainOk rng ms m
      (Layer.new rng k s nin m).2.2 (Layer.new rng k s nin m).1
      (pre ++ [(Layer.new rng k s nin m).2.1])
    refine ⟨(Layer.new rng k s nin m).2.1 :: suffix, ?_, ?_, ?_, hch⟩
    · show (((m :: ms).zip ms).foldl _
        ((Layer.new rng k s nin m).1, pre ++ [(Layer.new rng k s nin m).2.1],
          (Layer.new rng k s nin m).2.2)).2.1 = _
      rw [heq, List.append_assoc]
      rfl
    · exact (layer_new_spec rng k s nin m).1
    · exact (layer_new_spec rng k s nin m).2

/-- `MLP::new` establishes the layer-size chain of `chainOk`. -/
theorem mlp_new_chainOk (rng : Nat → α) (k : Nat) (s : Store α) (nin : Nat)
    (nouts : List Nat) :
    chainOk nin (MLP.new rng k s nin nouts).2.1.layers nouts := by
  obtain ⟨suffix, heq, hch⟩ := mlp_fold_chainOk rng nouts nin k s []
  have : (MLP.new rng k s nin nouts).2.1.layers =
      (((nin :: nouts).zip nouts).foldl
        (fun (acc : Store α × List Layer × Nat) (p : Nat × Nat) =>
          let q := Layer.new rng acc.2.2 acc.1 p.1 p.2
          (q.1, acc.2.1 ++ [q.2.1], q.2.2)) (s, [], k)).2.1 := rfl
  rw [this, heq]
  simpa using hch

/-- Unfolding of `MLP::call` with its lets reduced. -/
theorem mlp_call_unfold (F : FloatOps α) (s : Store α) (m : MLP) (inputs : List α) :
    MLP.call F s m inputs =
      (match m.layers.foldlM
          (fun (p : Store α × List Nat) l => Layer.call F p.1 l p.2)
          ((inputs.foldl
              (fun (p : Store α × List Nat) x =>
                let q := Value.new p.1 x
                (q.1, p.2 ++ [q.2])) (s, [])).1,
            (inputs.foldl
              (fun (p : Store α × List Nat) x =>
                let q := Value.new p.1 x
                (q.1, p.2 ++ [q.2])) (s, [])).2) with
       | Except.ok r =>
         (match r.2[0]? with
          | some v => Except.ok (r.1, v)
          | none =>
            Except.error "index out of bounds: the len is 0 but the index is 0")
       | Except.error e => Except.error e) := rfl

/-- `MLP::call` along a valid size chain with a nonempty final layer and
matching input length: the call succeeds, and the raw inputs sit in the
store as fresh leaves right after the original store (one leaf per
input, in order). -/
theorem mlp_call_spec (F : FloatOps α) (s0 : Store α) (net : MLP) (nin : Nat)
    (nouts : List Nat) (inputs : List α)
    (hch : chainOk nin net.layers nouts)
    (hlast : 1 ≤ nouts.getLastD nin)
    (hlen : inputs.length = nin) :
    ∃ s' v, MLP.call F s0 net inputs = Except.ok (s', v) ∧
      ∀ j, j < inputs.length →
        s'[s0.length + j]? =
          (inputs[j]?).map (fun q => (⟨q, none, none, 0⟩ : _Value α)) := by
  obtain ⟨hW1, hW2⟩ := wrap_spec inputs ((s0 : Store α), ([] : List Nat))
  have hP2 : ((inputs.foldl
      (fun (p : Store α × List Nat) x =>
        let q := Value.new p.1 x
        (q.1, p.2 ++ [q.2])) (s0, [])).1,
      (inputs.foldl
        (fun (p : Store α × List Nat) x =>
          let q := Value.new p.1 x
          (q.1, p.2 ++ [q.2])) (s0, [])).2).2.length = nin := by
    show (inputs.foldl
      (fun (p : Store α × List Nat) x =>
        let q := Value.new p.1 x
        (q.1, p.2 ++ [q.2])) (s0, [])).2.length = nin
    rw [hW2]
    simpa using hlen
  obtain ⟨t, outs, hfold, houts⟩ := layers_foldlM_spec F net.layers nouts nin
    ((inputs.foldl
      (fun (p : Store α × List Nat) x =>
        let q := Value.new p.1 x
        (q.1, p.2 ++ [q.2])) (s0, [])).1,
      (inputs.foldl
        (fun (p : Store α × List Nat) x =>
          let q := Value.new p.1 x
          (q.1, p.2 ++ [q.2])) (s0, [])).2) hch hP2
  have houtlen : 0 < outs.length := by
    rw [houts]
    exact hlast
  have h0 : outs[0]? = some outs[0] := List.getElem?_eq_getElem houtlen
  refine ⟨(inputs.foldl
      (fun (p : Store α × List Nat) x =>
        let q := Value.new p.1 x
        (q.1, p.2 ++ [q.2])) (s0, [])).1 ++ t, outs[0], ?_, ?_⟩
  · rw [mlp_call_unfold, hfold]
    simp only [h0]
  · intro j hj
    have hjlt : s0.length + j < (inputs.foldl
        (fun (p : Store α × List Nat) x =>
          let q := Value.new p.1 x
          (q.1, p.2 ++ [q.2])) (s0, [])).1.length := by
      rw [hW1]
      simp only [List.length_append, List.length_map]
      omega
    rw [slot_append _ t _ hjlt, hW1]
    rw [List.getElem?_append_right (Nat.le_add_right s0.length j)]
    simp

/-- C10 amended: with `layer_sizes` nonempty, its last entry at least 1,
and an input sequence of length `n_in`, `MLP::call` on a freshly built
network cannot fail: the first-output index is in bounds, and each raw
input is wrapped into a fresh leaf node appended right after the
constructor's store. -/
theorem C10_first_output_in_bounds (F : FloatOps α) (rng : Nat → α) (k nin : Nat)
    (s : Store α) (nouts : List Nat) (inputs : List α)
    (hne : nouts ≠ []) (hlast : 1 ≤ nouts.getLastD 0)
    (hlen : inputs.length = nin) :
    ∃ s' v, MLP.call F (MLP.new rng k s nin nouts).1 (MLP.new rng k s nin nouts).2.1
        inputs = Except.ok (s', v) ∧
      ∀ j, j < inputs.length →
        s'[(MLP.new rng k s nin nouts).1.length + j]? =
          (inputs[j]?).map (fun q => (⟨q, none, none, 0⟩ : _Value α)) := by
  have hlast2 : 1 ≤ nouts.getLastD nin := by
    cases nouts with
    | nil => exact absurd rfl hne
    | cons m ms => simpa [List.getLastD_cons] using hlast
  exact mlp_call_spec F (MLP.new rng k s nin nouts).1 (MLP.new rng k s nin nouts).2.1
    nin nouts inputs (mlp_new_chainOk rng k s nin nouts) hlast2 hlen

/-- C10 amended witness: the concrete 1-input, `[1]`-shaped network
`mlp11` on input `[5]`. -/
theorem C10_first_output_in_bounds_witness :
    ([1] : List Nat) ≠ [] ∧ 1 ≤ ([1] : List Nat).getLastD 0 ∧
    ([(5 : Int)]).length = 1 ∧
    (∃ s' v, MLP.call Fid (MLP.new (fun _ => (1 : Int)) 0 [] 1 [1]).1
        (MLP.new (fun _ => (1 : Int)) 0 [] 1 [1]).2.1 [5] = Except.ok (s', v) ∧
      ∀ j, j < ([(5 : Int)]).length →
        s'[(MLP.new (fun _ => (1 : Int)) 0 ([] : Store Int) 1 [1]).1.length + j]? =
          (([(5 : Int)])[j]?).map (fun q => (⟨q, none, none, 0⟩ : _Value Int))) :=
  ⟨by decide, by decide, by decide,
    C10_first_output_in_bounds Fid (fun _ => (1 : Int)) 0 1 [] [1] [5]
      (by decide) (by decide) (by decide)⟩

/-- `structEqF` is fuel-insensitive once the fuel exceeds the first
index (the recursion strictly decreases the first index). -/
theorem structEqF_congr (s : Store α) :
    ∀ (i f1 f2 j : Nat), i < f1 → i < f2 →
      structEqF s f1 i j = structEqF s f2 i j := by
  intro i
  induction i using Nat.strong_induction_on with
  | _ i ih =>
    intro f1 f2 j h1 h2
    obtain ⟨x, rfl⟩ : ∃ x, f1 = x + 1 := ⟨f1 - 1, by omega⟩
    obtain ⟨y, rfl⟩ : ∃ y, f2 = y + 1 := ⟨f2 - 1, by omega⟩
    rw [structEqF, structEqF]
    cases hsi : s[i]? with
    | none => rfl
    | some a =>
      cases hsj : s[j]? with
      | none => rfl
      | some b =>
        simp only
        cases hpa : a._prev with
        | none => cases hpb : b._prev <;> simp [hpa, hpb]
        | some ab =>
          obtain ⟨a1, a2⟩ := ab
          cases hpb : b._prev with
          | none => simp [hpa, hpb]
          | some cd =>
            obtain ⟨b1, b2⟩ := cd
            simp only [hpa, hpb]
            by_cases hg : a1 < i ∧ a2 < i ∧ b1 < j ∧ b2 < j
            · rw [if_pos hg, if_pos hg]
              rw [ih a1 hg.1 x y b1 (by omega) (by omega),
                ih a2 hg.2.1 x y b2 (by omega) (by omega)]
            · rw [if_neg hg, if_neg hg]

/-- `build_topoF` is fuel-insensitive once the fuel exceeds the node
index (the recursion strictly decreases the index). -/
theorem build_topoF_congr (s : Store α) :
    ∀ (v f1 f2 : Nat) (topo visited : List Nat), v < f1 → v < f2 →
      build_topoF s f1 v topo visited = build_topoF s f2 v topo visited := by
  intro v
  induction v using Nat.strong_induction_on with
  | _ v ih =>
    intro f1 f2 topo visited h1 h2
    obtain ⟨x, rfl⟩ : ∃ x, f1 = x + 1 := ⟨f1 - 1, by omega⟩
    obtain ⟨y, rfl⟩ : ∃ y, f2 = y + 1 := ⟨f2 - 1, by omega⟩
    rw [build_topoF, build_topoF]
    by_cases hany : (visited.any fun u => structEq s u v) = true
    · rw [if_pos hany, if_pos hany]
    · rw [if_neg hany, if_neg hany]
      cases hp : Value.get_prev s v with
      | none => rfl
      | some ab =>
        obtain ⟨a, b⟩ := ab
        simp only
        by_cases hg : a < v ∧ b < v
        · rw [if_pos hg, if_pos hg]
          rw [ih a hg.1 x y topo (visited ++ [v]) (by omega) (by omega)]
          rw [ih b hg.2 x y _ _ (by omega) (by omega)]
        · rw [if_neg hg, if_neg hg]

/-- Length of a relocated store. -/
theorem shiftStore_length (n : Nat) (C : Store α) :
    (shiftStore n C).length = C.length := by
  simp [shiftStore]

/-- Slot lookup in a prefix-plus-relocated-copy store, inside the
copy. -/
theorem slot_shift (P C : Store α) (i : Nat) :
    (P ++ shiftStore P.length C)[P.length + i]? =
      (C[i]?).map (shiftSlot P.length) := by
  rw [List.getElem?_append_right (Nat.le_add_right P.length i)]
  rw [Nat.add_sub_cancel_left]
  simp [shiftStore]

/-- Data transfer into the relocated copy. -/
theorem get_data_shift (P C : Store α) (i : Nat) :
    Value.get_data (P ++ shiftStore P.length C) (P.length + i) =
      Value.get_data C i := by
  unfold Value.get_data
  rw [slot_shift]
  cases C[i]? <;> simp [shiftSlot]

/-- Grad transfer into the relocated copy. -/
theorem get_grad_shift (P C : Store α) (i : Nat) :
    Value.get_grad (P ++ shiftStore P.length C) (P.length + i) =
      Value.get_grad C i := by
  unfold Value.get_grad
  rw [slot_shift]
  cases C[i]? <;> simp [shiftSlot]

/-- Op-tag transfer into the relocated copy. -/
theorem get_op_shift (P C : Store α) (i : Nat) :
    Value.get_op (P ++ shiftStore P.length C) (P.length + i) =
      Value.get_op C i := by
  unfold Value.get_op
  rw [slot_shift]
  cases C[i]? <;> simp [shiftSlot]

/-- Operand transfer into the relocated copy: operands are relocated by
the same offset. -/
theorem get_prev_shift (P C : Store α) (i : Nat) :
    Value.get_prev (P ++ shiftStore P.length C) (P.length + i) =
      (Value.get_prev C i).map (fun p => (P.length + p.1, P.length + p.2)) := by
  unfold Value.get_prev
  rw [slot_shift]
  cases h : C[i]? with
  | none => simp
  | some nd =>
    cases hp : nd._prev <;> simp [shiftSlot, hp]

/-- Structural equality is invariant under relocating the whole graph
past an arbitrary prefix. -/
theorem structEqF_shift (P C : Store α) :
    ∀ (fuel i j : Nat),
      structEqF (P ++ shiftStore P.length C) fuel (P.length + i) (P.length + j) =
        structEqF C fuel i j := by
  intro fuel
  induction fuel with
  | zero => intro i j; rfl
  | succ fuel ih =>
    intro i j
    rw [structEqF, structEqF]
    rw [show (P ++ shiftStore P.length C)[P.length + i]? =
      (C[i]?).map (shiftSlot P.length) from slot_shift P C i]
    rw [show (P ++ shiftStore P.length C)[P.length + j]? =
      (C[j]?).map (shiftSlot P.length) from slot_shift P C j]
    cases hci : C[i]? with
    | none => rfl
    | some a =>
      cases hcj : C[j]? with
      | none => rfl
      | some b =>
        simp only [Option.map_some]
        show (decide ((shiftSlot P.length a).data = (shiftSlot P.length b).data) &&
          _ && decide ((shiftSlot P.length a)._op = (shiftSlot P.length b)._op) &&
          decide ((shiftSlot P.length a).grad = (shiftSlot P.length b).grad)) = _
        cases hpa : a._prev with
        | none =>
          cases hpb : b._prev <;>
            simp [shiftSlot, hpa, hpb]
        | some ab =>
          obtain ⟨a1, a2⟩ := ab
          cases hpb : b._prev with
          | none => simp [shiftSlot, hpa, hpb]
          | some cd =>
            obtain ⟨b1, b2⟩ := cd
            simp only [shiftSlot, hpa, hpb, Option.map_some, Option.map_some']
            have hiff : (P.length + a1 < P.length + i ∧ P.length + a2 < P.length + i ∧
                P.length + b1 < P.length + j ∧ P.length + b2 < P.length + j) ↔
                (a1 < i ∧ a2 < i ∧ b1 < j ∧ b2 < j) := by omega
            by_cases hg : a1 < i ∧ a2 < i ∧ b1 < j ∧ b2 < j
            · rw [if_pos (hiff.mpr hg), if_pos hg, ih a1 b1, ih a2 b2]
            · rw [if_neg (fun hh => hg (hiff.mp hh)), if_neg hg]

/-- The visited test is invariant under relocation. -/
theorem structEq_shift (P C : Store α) (i j : Nat) :
    structEq (P ++ shiftStore P.length C) (P.length + i) (P.length + j) =
      structEq C i j := by
  unfold structEq
  rw [structEqF_shift P C (P.length + i + 1) i j]
  exact structEqF_congr C i _ _ j (by omega) (by omega)

/-- The DFS of `build_topo` is invariant under relocation: on the
relocated copy it visits exactly the relocated nodes, in the same
order. -/
theorem build_topoF_shift (P C : Store α) :
    ∀ (fuel v : Nat) (topo visited : List Nat),
      build_topoF (P ++ shiftStore P.length C) fuel (P.length + v)
        (topo.map (P.length + ·)) (visited.map (P.length + ·)) =
        ((build_topoF C fuel v topo visited).1.map (P.length + ·),
          (build_topoF C fuel v topo visited).2.map (P.length + ·)) := by
  intro fuel
  induction fuel with
  | zero => intro v topo visited; rfl
  | succ fuel ih =>
    intro v topo visited
    rw [build_topoF, build_topoF]
    have hany : ((visited.map (P.length + ·)).any
        (fun x => structEq (P ++ shiftStore P.length C) x (P.length + v))) =
        (visited.any fun x => structEq C x v) := by
      rw [List.any_map]
      congr 1
      funext x
      exact structEq_shift P C x v
    rw [hany]
    by_cases h : (visited.any fun x => structEq C x v) = true
    · rw [if_pos h, if_pos h]
    · rw [if_neg h, if_neg h]
      rw [show Value.get_prev (P ++ shiftStore P.length C) (P.length + v) =
        (Value.get_prev C v).map (fun p => (P.length + p.1, P.length + p.2)) from
        get_prev_shift P C v]
      cases hp : Value.get_prev C v with
      | none => simp only [Option.map_none', List.map_append, List.map_cons, List.map_nil]
      | some ab =>
        obtain ⟨a, b⟩ := ab
        simp only [Option.map_some, Option.map_some']
        have hvm : visited.map (P.length + ·) ++ [P.length + v] =
            (visited ++ [v]).map (P.length + ·) := by simp
        by_cases hg : a < v ∧ b < v
        · rw [if_pos (by omega : P.length + a < P.length + v ∧
            P.length + b < P.length + v), if_pos hg]
          simp only
          rw [hvm, ih a topo (visited ++ [v])]
          rw [ih b (build_topoF C fuel a topo (visited ++ [v])).1
            (build_topoF C fuel a topo (visited ++ [v])).2]
          simp only [List.map_append, List.map_cons, List.map_nil]
        · rw [if_neg (by omega : ¬(P.length + a < P.length + v ∧
            P.length + b < P.length + v)), if_neg hg]
          simp only [List.map_append, List.map_cons, List.map_nil]

/-- Writing a grad inside the relocated copy relocates the write. -/
theorem update_grad_shift (P C : Store α) (v : Nat) (g : α) :
    Value.update_grad (P ++ shiftStore P.length C) (P.length + v) g =
      P ++ shiftStore P.length (Value.update_grad C v g) := by
  unfold Value.update_grad
  rw [show (P ++ shiftStore P.length C)[P.length + v]? =
    (C[v]?).map (shiftSlot P.length) from slot_shift P C v]
  cases h : C[v]? with
  | none => rfl
  | some nd =>
    simp only [Option.map_some']
    show (P ++ shiftStore P.length C).set (P.length + v)
        { shiftSlot P.length nd with grad := g } =
      P ++ shiftStore P.length (C.set v { nd with grad := g })
    rw [show ({ shiftSlot P.length nd with grad := g } : _Value α) =
      shiftSlot P.length { nd with grad := g } from rfl]
    rw [show P.length = (P : Store α).length from rfl]
    rw [List.set_append_right _ _ (Nat.le_add_right P.length v)]
    rw [Nat.add_sub_cancel_left]
    unfold shiftStore
    rw [List.map_set]

/-- One `_backward` step inside the relocated copy relocates the
step. -/
theorem _backward_shift (F : FloatOps α) (P C : Store α) (v : Nat) :
    Value._backward F (P ++ shiftStore P.length C) (P.length + v) =
      P ++ shiftStore P.length (Value._backward F C v) := by
  unfold Value._backward
  rw [get_prev_shift, get_op_shift]
  cases hp : Value.get_prev C v with
  | none => rfl
  | some ab =>
    obtain ⟨a, b⟩ := ab
    simp only [Option.map_some']
    cases ho : Value.get_op C v with
    | none => rfl
    | some op =>
      cases op <;>
        simp only [get_grad_shift, get_data_shift, update_grad_shift,
          get_grad_update_grad_ne, get_data_update_grad]

/-- Folding `_backward` over relocated handles relocates the fold. -/
theorem foldl_backward_shift (F : FloatOps α) (P : Store α) :
    ∀ (l : List Nat) (C : Store α),
      ((l.map (P.length + ·)).foldl (fun st n => Value._backward F st n)
        (P ++ shiftStore P.length C)) =
        P ++ shiftStore P.length (l.foldl (fun st n => Value._backward F st n) C)
  | [], _ => rfl
  | u :: l, C => by
    simp only [List.map_cons, List.foldl_cons]
    rw [_backward_shift F P C u]
    exact foldl_backward_shift F P l (Value._backward F C u)

/-- The whole backward pass inside the relocated copy relocates the
pass: running backward on the second, relocated copy of a graph behaves
exactly as running it on the original, slot for slot. -/
theorem backward_shift (F : FloatOps α) (P C : Store α) (v : Nat) :
    Value.backward F (P ++ shiftStore P.length C) (P.length + v) =
      P ++ shiftStore P.length (Value.backward F C v) := by
  rw [backward_unfold, backward_unfold]
  have htopo : (build_topo (P ++ shiftStore P.length C) (P.length + v) [] []).1 =
      ((build_topo C v [] []).1).map (P.length + ·) := by
    have h1 := build_topoF_shift P C (P.length + v + 1) v [] []
    simp only [List.map_nil] at h1
    unfold build_topo
    rw [h1]
    rw [build_topoF_congr C v (P.length + v + 1) (v + 1) [] [] (by omega) (by omega)]
  rw [htopo, update_grad_shift, ← List.map_reverse]
  exact foldl_backward_shift F P ((build_topo C v [] []).1).reverse
    (Value.update_grad C v 1)

/-- Relocation distributes over appending a relocated node. -/
theorem shift_append_node (P C : Store α) (nd : _Value α) :
    P ++ shiftStore P.length (C ++ [nd]) =
      (P ++ shiftStore P.length C) ++ [shiftSlot P.length nd] := by
  unfold shiftStore
  rw [List.map_append, List.map_singleton, List.append_assoc]

/-- Building the same expression on top of any heap produces the same
graph, relocated: the fresh nodes are identical up to adding the heap
size to every internal reference, and the root handle is offset by the
heap size. -/
theorem buildE_shift (F : FloatOps α) (P : Store α) :
    ∀ (e : Expr α) (C : Store α),
      buildE F e (P ++ shiftStore P.length C) =
        (P ++ shiftStore P.length (buildE F e C).1, P.length + (buildE F e C).2) := by
  intro e
  induction e with
  | leaf q =>
    intro C
    show (P ++ shiftStore P.length C ++ [_], (P ++ shiftStore P.length C).length) = _
    rw [show (⟨q, none, none, 0⟩ : _Value α) = shiftSlot P.length ⟨q, none, none, 0⟩
      from rfl]
    rw [← shift_append_node]
    have : (P ++ shiftStore P.length C).length = P.length + C.length := by
      simp [shiftStore_length]
    rw [this]
    rfl
  | addE e1 e2 ih1 ih2 =>
    intro C
    show buildE F (Expr.addE e1 e2) (P ++ shiftStore P.length C) = _
    rw [buildE, ih1 C, ih2 (buildE F e1 C).1]
    unfold Value.add
    unfold Value.new_ext
    rw [get_data_shift, get_data_shift]
    rw [show (⟨Value.get_data (buildE F e2 (buildE F e1 C).1).1 (buildE F e1 C).2 +
        Value.get_data (buildE F e2 (buildE F e1 C).1).1 (buildE F e2 (buildE F e1 C).1).2,
        some (P.length + (buildE F e1 C).2, P.length + (buildE F e2 (buildE F e1 C).1).2),
        some Op.Add, 0⟩ : _Value α) =
      shiftSlot P.length ⟨Value.get_data (buildE F e2 (buildE F e1 C).1).1 (buildE F e1 C).2 +
        Value.get_data (buildE F e2 (buildE F e1 C).1).1 (buildE F e2 (buildE F e1 C).1).2,
        some ((buildE F e1 C).2, (buildE F e2 (buildE F e1 C).1).2),
        some Op.Add, 0⟩ from rfl]
    rw [← shift_append_node]
    have : (P ++ shiftStore P.length (buildE F e2 (buildE F e1 C).1).1).length =
        P.length + (buildE F e2 (buildE F e1 C).1).1.length := by
      simp [shiftStore_length]
    rw [this]
    rfl
  | mulE e1 e2 ih1 ih2 =>
    intro C
    show buildE F (Expr.mulE e1 e2) (P ++ shiftStore P.length C) = _
    rw [buildE, ih1 C, ih2 (buildE F e1 C).1]
    unfold Value.mul
    unfold Value.new_ext
    rw [get_data_shift, get_data_shift]
    rw [show (⟨Value.get_data (buildE F e2 (buildE F e1 C).1).1 (buildE F e1 C).2 *
        Value.get_data (buildE F e2 (buildE F e1 C).1).1 (buildE F e2 (buildE F e1 C).1).2,
        some (P.length + (buildE F e1 C).2, P.length + (buildE F e2 (buildE F e1 C).1).2),
        some Op.Mul, 0⟩ : _Value α) =
      shiftSlot P.length ⟨Value.get_data (buildE F e2 (buildE F e1 C).1).1 (buildE F e1 C).2 *
        Value.get_data (buildE F e2 (buildE F e1 C).1).1 (buildE F e2 (buildE F e1 C).1).2,
        some ((buildE F e1 C).2, (buildE F e2 (buildE F e1 C).1).2),
        some Op.Mul, 0⟩ from rfl]
    rw [← shift_append_node]
    have : (P ++ shiftStore P.length (buildE F e2 (buildE F e1 C).1).1).length =
        P.length + (buildE F e2 (buildE F e1 C).1).1.length := by
      simp [shiftStore_length]
    rw [this]
    rfl
  | tanhE e ih =>
    intro C
    show buildE F (Expr.tanhE e) (P ++ shiftStore P.length C) = _
    rw [buildE, ih C]
    unfold Value.tanh
    unfold Value.new_ext
    rw [get_data_shift]
    rw [show (⟨F.tanh (Value.get_data (buildE F e C).1 (buildE F e C).2),
        some (P.length + (buildE F e C).2, P.length + (buildE F e C).2),
        some Op.Tanh, 0⟩ : _Value α) =
      shiftSlot P.length ⟨F.tanh (Value.get_data (buildE F e C).1 (buildE F e C).2),
        some ((buildE F e C).2, (buildE F e C).2), some Op.Tanh, 0⟩ from rfl]
    rw [← shift_append_node]
    have : (P ++ shiftStore P.length (buildE F e C).1).length =
        P.length + (buildE F e C).1.length := by
      simp [shiftStore_length]
    rw [this]
    rfl
  | expE e ih =>
    intro C
    show buildE F (Expr.expE e) (P ++ shiftStore P.length C) = _
    rw [buildE, ih C]
    unfold Value.exp
    unfold Value.new_ext
    rw [get_data_shift]
    rw [show (⟨F.exp (Value.get_data (buildE F e C).1 (buildE F e C).2),
        some (P.length + (buildE F e C).2, P.length + (buildE F e C).2),
        some Op.Exp, 0⟩ : _Value α) =
      shiftSlot P.length ⟨F.exp (Value.get_data (buildE F e C).1 (buildE F e C).2),
        some ((buildE F e C).2, (buildE F e C).2), some Op.Exp, 0⟩ from rfl]
    rw [← shift_append_node]
    have : (P ++ shiftStore P.length (buildE F e C).1).length =
        P.length + (buildE F e C).1.length := by
      simp [shiftStore_length]
    rw [this]
    rfl
  | powE e1 e2 ih1 ih2 =>
    intro C
    show buildE F (Expr.powE e1 e2) (P ++ shiftStore P.length C) = _
    rw [buildE, ih1 C, ih2 (buildE F e1 C).1]
    unfold Value.pow
    unfold Value.new_ext
    rw [get_data_shift, get_data_shift]
    rw [show (⟨F.powf (Value.get_data (buildE F e2 (buildE F e1 C).1).1 (buildE F e1 C).2)
        (Value.get_data (buildE F e2 (buildE F e1 C).1).1 (buildE F e2 (buildE F e1 C).1).2),
        some (P.length + (buildE F e1 C).2, P.length + (buildE F e2 (buildE F e1 C).1).2),
        some Op.Pow, 0⟩ : _Value α) =
      shiftSlot P.length ⟨F.powf
        (Value.get_data (buildE F e2 (buildE F e1 C).1).1 (buildE F e1 C).2)
        (Value.get_data (buildE F e2 (buildE F e1 C).1).1 (buildE F e2 (buildE F e1 C).1).2),
        some ((buildE F e1 C).2, (buildE F e2 (buildE F e1 C).1).2),
        some Op.Pow, 0⟩ from rfl]
    rw [← shift_append_node]
    have : (P ++ shiftStore P.length (buildE F e2 (buildE F e1 C).1).1).length =
        P.length + (buildE F e2 (buildE F e1 C).1).1.length := by
      simp [shiftStore_length]
    rw [this]
    rfl

/-- `zeroAll` distributes over append. -/
theorem zeroAll_append (s t : Store α) :
    zeroAll (s ++ t) = zeroAll s ++ zeroAll t := by
  simp [zeroAll]

/-- `zeroAll` commutes with relocation. -/
theorem zeroAll_shift (n : Nat) (C : Store α) :
    zeroAll (shiftStore n C) = shiftStore n (zeroAll C) := by
  unfold zeroAll shiftStore
  rw [List.map_map, List.map_map]
  rfl

/-- `zeroAll` preserves the length. -/
theorem zeroAll_length (s : Store α) : (zeroAll s).length = s.length := by
  simp [zeroAll]

/-- Graphs freshly built from an all-zero-grad heap have all grads 0. -/
theorem buildE_grads_zero (F : FloatOps α) :
    ∀ (e : Expr α) (s : Store α), (∀ nd ∈ s, nd.grad = 0) →
      ∀ nd ∈ (buildE F e s).1, nd.grad = 0 := by
  intro e
  induction e with
  | leaf q =>
    intro s h nd hnd
    rcases List.mem_append.mp hnd with h2 | h2
    · exact h nd h2
    · rw [List.mem_singleton.mp h2]
  | addE e1 e2 ih1 ih2 =>
    intro s h nd hnd
    rw [buildE] at hnd
    rcases List.mem_append.mp hnd with h2 | h2
    · exact ih2 _ (ih1 s h) nd h2
    · rw [List.mem_singleton.mp h2]
  | mulE e1 e2 ih1 ih2 =>
    intro s h nd hnd
    rw [buildE] at hnd
    rcases List.mem_append.mp hnd with h2 | h2
    · exact ih2 _ (ih1 s h) nd h2
    · rw [List.mem_singleton.mp h2]
  | tanhE e ih =>
    intro s h nd hnd
    rw [buildE] at hnd
    rcases List.mem_append.mp hnd with h2 | h2
    · exact ih s h nd h2
    · rw [List.mem_singleton.mp h2]
  | expE e ih =>
    intro s h nd hnd
    rw [buildE] at hnd
    rcases List.mem_append.mp hnd with h2 | h2
    · exact ih s h nd h2
    · rw [List.mem_singleton.mp h2]
  | powE e1 e2 ih1 ih2 =>
    intro s h nd hnd
    rw [buildE] at hnd
    rcases List.mem_append.mp hnd with h2 | h2
    · exact ih2 _ (ih1 s h) nd h2
    · rw [List.mem_singleton.mp h2]

/-- `zeroAll` is the identity on an all-zero-grad heap. -/
theorem zeroAll_of_grads_zero :
    ∀ (s : Store α), (∀ nd ∈ s, nd.grad = 0) → zeroAll s = s
  | [], _ => rfl
  | nd :: s, h => by
    unfold zeroAll
    rw [List.map_cons]
    have h1 : ({ nd with grad := 0 } : _Value α) = nd := by
      have := h nd (List.mem_cons_self nd s)
      cases nd
      simp only at this
      rw [this]
    rw [h1]
    have h2 := zeroAll_of_grads_zero s (fun x hx => h x (List.mem_cons_of_mem nd hx))
    unfold zeroAll at h2
    rw [h2]

/-- Grad of a handle past the end of the heap (dangling). -/
theorem get_grad_of_ge (s : Store α) (v : Nat) (h : s.length ≤ v) :
    Value.get_grad s v = 0 := by
  unfold Value.get_grad
  rw [List.getElem?_eq_none h]
  rfl

/-- Relocating the empty store. -/
theorem shiftStore_nil (n : Nat) : shiftStore n ([] : Store α) = [] := rfl

/-- A backward pass preserves store well-formedness (it never touches
operand references). -/
theorem storeWF_backward (F : FloatOps α) (s : Store α) (v : Nat)
    (h : storeWF s = true) : storeWF (Value.backward F s v) = true := by
  rw [storeWF_iff]
  intro i a b hp
  rw [backward_get_prev] at hp
  exact (storeWF_iff s).mp h i a b hp

/-- C3 amended, zero-grad isolation.  Part (a): building the same
expression a second time on top of the heap left by the first backward
pass, zeroing every grad, and running backward from the second root
produces on every node of the second copy exactly the grad its
counterpart received in the first run (and 0 beyond both graphs).  Part
(b): on the same graph `y = mul(x, x)`, one backward run gives
`x.grad = 2q` and `y.grad = 1`; re-running backward without zeroing sums
the leaf's contributions (`x.grad = 2q + 2q`, the sum of the two runs'
individual results) but re-seeds the root to 1 instead of summing. -/
theorem C3_zero_grad_isolation (F : FloatOps α) :
    (∀ (e : Expr α) (i : Nat),
      Value.get_grad
        (Value.backward F
          (zeroAll (buildE F e (Value.backward F (buildE F e ([] : Store α)).1
            (buildE F e ([] : Store α)).2)).1)
          (buildE F e (Value.backward F (buildE F e ([] : Store α)).1
            (buildE F e ([] : Store α)).2)).2)
        ((Value.backward F (buildE F e ([] : Store α)).1
          (buildE F e ([] : Store α)).2).length + i) =
      Value.get_grad (Value.backward F (buildE F e ([] : Store α)).1
        (buildE F e ([] : Store α)).2) i) ∧
    (∀ q : α,
      Value.get_grad (Value.backward F (mulSelfGraph q).1 (mulSelfGraph q).2) 0 =
        2 * q ∧
      Value.get_grad (Value.backward F (mulSelfGraph q).1 (mulSelfGraph q).2)
        (mulSelfGraph q).2 = 1 ∧
      Value.get_grad (Value.backward F
        (Value.backward F (mulSelfGraph q).1 (mulSelfGraph q).2)
        (mulSelfGraph q).2) 0 = 2 * q + 2 * q ∧
      Value.get_grad (Value.backward F
        (Value.backward F (mulSelfGraph q).1 (mulSelfGraph q).2)
        (mulSelfGraph q).2) (mulSelfGraph q).2 = 1) := by
  constructor
  · intro e i
    have hb := buildE_shift F (Value.backward F (buildE F e ([] : Store α)).1
      (buildE F e ([] : Store α)).2) e []
    rw [shiftStore_nil, List.append_nil] at hb
    rw [hb]
    rw [zeroAll_append, zeroAll_shift,
      zeroAll_of_grads_zero (buildE F e ([] : Store α)).1
        (buildE_grads_zero F e []
          (fun nd h => absurd h (List.not_mem_nil nd)))]
    rw [show (Value.backward F (buildE F e ([] : Store α)).1
        (buildE F e ([] : Store α)).2).length =
      (zeroAll (Value.backward F (buildE F e ([] : Store α)).1
        (buildE F e ([] : Store α)).2)).length from (zeroAll_length _).symm]
    rw [backward_shift F
      (zeroAll (Value.backward F (buildE F e ([] : Store α)).1
        (buildE F e ([] : Store α)).2))
      (buildE F e ([] : Store α)).1 (buildE F e ([] : Store α)).2]
    rw [get_grad_shift]
  · intro q
    have hwf : storeWF (mulSelfGraph q).1 = true := rfl
    have hy : (mulSelfGraph q).2 = 1 := rfl
    have hylen : (mulSelfGraph q).2 < (mulSelfGraph q).1.length := by
      rw [hy]
      show 1 < 2
      omega
    have hxy : (0 : Nat) < (mulSelfGraph q).2 := by rw [hy]; omega
    have hprev : Value.get_prev (mulSelfGraph q).1 (mulSelfGraph q).2 =
        some (0, 0) := rfl
    have hop : Value.get_op (mulSelfGraph q).1 (mulSelfGraph q).2 =
        some Op.Mul := rfl
    have hg0 : Value.get_grad (mulSelfGraph q).1 0 = 0 := rfl
    have hd0 : Value.get_data (mulSelfGraph q).1 0 = q := rfl
    obtain ⟨hx1, hy1⟩ := mul_root_backward F (mulSelfGraph q).1 0 (mulSelfGraph q).2
      hwf hylen hxy hprev hop
    have hb1 : Value.get_grad
        (Value.backward F (mulSelfGraph q).1 (mulSelfGraph q).2) 0 = 2 * q := by
      rw [hx1, hg0, hd0]
      ring
    have hwf2 : storeWF (Value.backward F (mulSelfGraph q).1 (mulSelfGraph q).2) =
        true := storeWF_backward F _ _ hwf
    have hylen2 : (mulSelfGraph q).2 <
        (Value.backward F (mulSelfGraph q).1 (mulSelfGraph q).2).length := by
      rw [backward_length]
      exact hylen
    have hprev2 : Value.get_prev
        (Value.backward F (mulSelfGraph q).1 (mulSelfGraph q).2)
        (mulSelfGraph q).2 = some (0, 0) := by
      rw [backward_get_prev]
      exact hprev
    have hop2 : Value.get_op
        (Value.backward F (mulSelfGraph q).1 (mulSelfGraph q).2)
        (mulSelfGraph q).2 = some Op.Mul := by
      rw [backward_get_op]
      exact hop
    have hd0run : Value.get_data
        (Value.backward F (mulSelfGraph q).1 (mulSelfGraph q).2) 0 = q := by
      rw [backward_get_data]
      exact hd0
    obtain ⟨hx2, hy2⟩ := mul_root_backward F
      (Value.backward F (mulSelfGraph q).1 (mulSelfGraph q).2) 0 (mulSelfGraph q).2
      hwf2 hylen2 hxy hprev2 hop2
    refine ⟨hb1, hy1, ?_, hy2⟩
    rw [hx2, hb1, hd0run]

/-- C1: the code's `Exp` rule overwrites the operand's accumulated grad
instead of adding to it.  In `y = add(exp(x), x)` the `Add` step first
accumulates 1 into `x.grad` (first conjunct: one `_backward` step on the
seeded root); the full backward pass then leaves `x.grad = exp(x.value) *
y.grad = 10`, not the claimed `1 + 10`. -/
theorem C1_exp_rule_overwrites_grad :
    Value.get_grad (Value._backward Fexp10 (Value.update_grad gC1.1 2 1) 2) 0 = 1 ∧
    Value.get_grad (Value.backward Fexp10 gC1.1 gC1.2) 0 = 10 ∧
    (10 : Int) ≠ 1 + 10 := by
  refine ⟨by decide, by decide, by decide⟩

/-- C2: the visited check of `build_topo` uses structural value equality
(the derived `PartialEq`), so the two distinct equal-valued leaves 0 and
1 (and their equal `exp` consumers 2 and 3) are coalesced: nodes 1 and 3
never enter the order, and leaf 1 receives no gradient while leaf 0
does. -/
theorem C2_visited_check_is_structural :
    (build_topo gC2.1 gC2.2 [] []).1 = [0, 2, 4] ∧
    ¬ 1 ∈ (build_topo gC2.1 gC2.2 [] []).1 ∧
    ¬ 3 ∈ (build_topo gC2.1 gC2.2 [] []).1 ∧
    Value.get_grad (Value.backward Fexp10 gC2.1 gC2.2) 0 = 10 ∧
    Value.get_grad (Value.backward Fexp10 gC2.1 gC2.2) 1 = 0 := by
  refine ⟨by decide, by decide, by decide, by decide, by decide⟩

/-- C3 fails at the root: running backward twice on the same graph
`y = mul(x, x)` without zeroing leaves `y.grad = 1` (the seed is
re-assigned), while each individual run produces `y.grad = 1`, so the
claimed sum would be `1 + 1`. -/
theorem C3_counterexample_root_reseed :
    Value.get_grad (Value.backward Fid gMulXX.1 gMulXX.2) gMulXX.2 = 1 ∧
    Value.get_grad
      (Value.backward Fid (Value.backward Fid gMulXX.1 gMulXX.2) gMulXX.2)
      gMulXX.2 = 1 ∧
    (1 : Int) ≠ 1 + 1 := by
  refine ⟨by decide, by decide, by decide⟩

/-- C4 fails: on a network whose final layer has 2 outputs, the node
sequence returned by `MLP::call` is the singleton `[9]` (the first
output's handle), not the final layer's entire output sequence
`[9, 14]`. -/
theorem C4_counterexample_first_output_only :
    (match MLP.call Fid mlp12.1 mlp12.2.1 [3] with
     | Except.ok r => some [r.2]
     | Except.error _ => none) = some [9] ∧
    (match MLP.call_spec Fid mlp12.1 mlp12.2.1 [3] with
     | Except.ok r => some r.2
     | Except.error _ => none) = some [9, 14] ∧
    ([9] : List Nat) ≠ [9, 14] := by
  refine ⟨by decide, by decide, by decide⟩

omit [DecidableEq α] in
/-- C4 amended: `MLP::call` threads the layer outputs exactly as the
spec's forward does (`MLP.call_spec`) and then returns position 0 of the
final layer's output sequence, failing precisely when that sequence is
empty. -/
theorem C4_forward_returns_head (F : FloatOps α) (s : Store α) (m : MLP)
    (inputs : List α) :
    MLP.call F s m inputs =
      (match MLP.call_spec F s m inputs with
       | Except.ok r =>
         (match r.2[0]? with
          | some v => Except.ok (r.1, v)
          | none =>
            Except.error "index out of bounds: the len is 0 but the index is 0")
       | Except.error e => Except.error e) := rfl

/-- C6 fails: in `root = add(l1, l2)` with two distinct equal-valued
leaves, the computed order is `[0, 2]`: the root's second operand
(node 1) does not appear in the order at all, hence not strictly
earlier than the root. -/
theorem C6_topo_order_misses_operand :
    Value.get_prev gC6.1 2 = some (0, 1) ∧
    (build_topo gC6.1 gC6.2 [] []).1 = [0, 2] ∧
    ¬ 1 ∈ (build_topo gC6.1 gC6.2 [] []).1 := by
  refine ⟨by decide, by decide, by decide⟩

/-- C10 fails as stated: with `layer_sizes = [1]` (last entry ≥ 1) but an
input sequence whose length differs from `n_in = 1`, the call fails with
the neuron arity error, so "the call cannot fail" does not follow from
the last-entry precondition alone. -/
theorem C10_counterexample_arity_failure :
    [1].getLast? = some 1 ∧
    (match MLP.call Fid mlp11.1 mlp11.2.1 ([] : List Int) with
     | Except.error e => some e
     | Except.ok _ => none) =
      some "Input size must match number of weights." := by
  refine ⟨by decide, by decide⟩

end Micrograd
